import Mathlib

/-!
# cert-manager-volcdns-webhook: zone resolution, host extraction, TXT value codec, pager

A shallow embedding of `src/volcengine/utils.go` and `src/volcengine/solver.go`.

Conventions of the embedding.

* A Go `string` is a `List Char`: the sequence of code points of a valid UTF-8 string.
  `len(s)` is the UTF-8 byte length (`strings.len`), not the number of code points.
* A Go `int` / `int64` is an `Int` kept inside the 64-bit two's-complement range by
  `wrapInt`; every arithmetic result the source computes on `int` is wrapped.
* A Go pointer field (`*string`, `*int32`) is an `Option`; `nil` is `none`.
* A Go `error` is a value of `Error ε`: the errors the package builds itself are
  constructors, every error handed in from outside (the provider, a page function)
  is `Error.ext e` and is passed along as it is.
* The calls a solver operation makes on the `dnsAPI` interface are recorded, in order,
  in a `List Call` returned next to the result.
-/

/-! ## Go standard library: `unicode`, `strings`, `strconv` -/

namespace unicode

/-- Go `unicode.IsSpace`: the Latin-1 switch, and the `White_Space` table above Latin-1. -/
def IsSpace (r : Char) : Bool :=
  let n := r.toNat
  if n ≤ 0xFF then
    n == 0x09 || n == 0x0A || n == 0x0B || n == 0x0C || n == 0x0D || n == 0x20
      || n == 0x85 || n == 0xA0
  else
    n == 0x1680 || (0x2000 ≤ n && n ≤ 0x200A) || n == 0x2028 || n == 0x2029
      || n == 0x202F || n == 0x205F || n == 0x3000

end unicode

namespace strings

/-- The double-quote character `U+0022`. -/
def dquote : Char := Char.ofNat 34

/-- The full stop `U+002E`. -/
def dot : Char := Char.ofNat 46

/-- Go `len(s)`: the number of bytes of the UTF-8 encoding. -/
def len (s : List Char) : Nat := (s.map Char.utf8Size).sum

/-- Go `strings.HasPrefix`. -/
def HasPrefix (s pre : List Char) : Bool := pre.isPrefixOf s

/-- Go `strings.HasSuffix`. -/
def HasSuffix (s suffix : List Char) : Bool := suffix.isSuffixOf s

/-- Go `strings.TrimSuffix`: `s` without the trailing `suffix`, or `s` itself. -/
def TrimSuffix (s suffix : List Char) : List Char :=
  if HasSuffix s suffix then s.take (s.length - suffix.length) else s

/-- Go `strings.Trim`: every leading and every trailing code point of `cutset` removed. -/
def Trim (s cutset : List Char) : List Char :=
  (s.dropWhile (fun c => cutset.contains c)).rdropWhile (fun c => cutset.contains c)

/-- Go `strings.TrimSpace`: leading and trailing white space removed. -/
def TrimSpace (s : List Char) : List Char :=
  (s.dropWhile unicode.IsSpace).rdropWhile unicode.IsSpace

/-- Scan of `strings.Replace` for a non-empty `old`: `skip` counts the code points of a
match that are still to be passed over. -/
def replaceScan (old new : List Char) : Nat → List Char → List Char
  | _, [] => []
  | skip + 1, _ :: cs => replaceScan old new skip cs
  | 0, c :: cs =>
    if old.isPrefixOf (c :: cs) then new ++ replaceScan old new (old.length - 1) cs
    else c :: replaceScan old new 0 cs

/-- Go `strings.ReplaceAll`: non-overlapping occurrences of `old`, left to right, replaced
by `new`; an empty `old` matches before every code point and at the end. -/
def ReplaceAll (s old new : List Char) : List Char :=
  if old = [] then new ++ s.flatMap (fun c => c :: new)
  else replaceScan old new 0 s

end strings

namespace strconv

/-- Go `strconv.ParseUint(s, 10, 64)` on a digit string, before the range check. -/
def parseDigits (s : List Char) : Option Nat :=
  if s = [] then none
  else if s.all Char.isDigit then some (s.foldl (fun n c => 10 * n + (c.toNat - 48)) 0)
  else none

/-- Go `strconv.ParseInt(s, 10, 64)`: an optional sign, then decimal digits, the value in
the `int64` range; `none` is the syntax or range error. -/
def ParseInt (s : List Char) : Option Int :=
  match s with
  | [] => none
  | c :: rest =>
    let neg : Bool := c == '-'
    let body := if c == '+' || c == '-' then rest else c :: rest
    match parseDigits body with
    | none => none
    | some un =>
      if !neg && un ≥ 2 ^ 63 then none
      else if neg && un > 2 ^ 63 then none
      else some (if neg then -(un : Int) else (un : Int))

end strconv

namespace volcengine

/-! ## Errors and machine integers -/

/-- A Go `error` of the package. -/
inductive Error (ε : Type) where
  /-- An error produced outside the package and passed along unchanged. -/
  | ext (e : ε)
  /-- The `pageSize must be greater than 0` error of `QueryAll`. -/
  | pageSizeNotPositive
  /-- The `invalid zoneID format` error of `getZoneID`, for the configured text. -/
  | invalidZoneIDFormat (zoneID : List Char)
  /-- The `configured zoneID ... not found` error of `getZoneID`. -/
  | zoneIDNotFound (zoneID : List Char)
  /-- The `no matching zone found for ...` error of `findZoneID`, for the trimmed fqdn. -/
  | noMatchingZone (fqdn : List Char)
  deriving DecidableEq, Repr

/-- The largest `int` of a 64-bit target. -/
def maxInt : Int := 2 ^ 63 - 1

/-- Two's-complement wrap-around of an integer into the 64-bit `int` range. -/
def wrapInt (x : Int) : Int := (x + 2 ^ 63) % 2 ^ 64 - 2 ^ 63

/-! ## `utils.go` -/

/-- Result of `QueryAll` together with the calls it made on the page function:
`calls` lists the `(pageNum, pageSize)` arguments in call order, `items` and `err` are
the two values the Go function returns. -/
structure PagerRun (T ε : Type) where
  calls : List (Int × Int)
  items : List T
  err : Option (Error ε)

/-- The test `pageNum*pageSize >= total` of `QueryAll`, on machine integers. -/
def QueryAll.stop (pageNum pageSize total : Int) : Bool :=
  decide (wrapInt (pageNum * pageSize) ≥ total)

/-- The `for` loop of `QueryAll`. `fuel` bounds the number of iterations; `none` means the
fuel ran out before the loop ended. -/
def QueryAll.loop {T ε : Type} (pageSize : Int)
    (query : Int → Int → List T × Int × Option (Error ε)) :
    Nat → Int → List T → List (Int × Int) → Option (PagerRun T ε)
  | 0, _, _, _ => none
  | fuel + 1, pageNum, all, calls =>
    match query pageNum pageSize with
    | (_, _, some err) => some ⟨calls ++ [(pageNum, pageSize)], [], some err⟩
    | (data, total, none) =>
      if QueryAll.stop pageNum pageSize total then
        some ⟨calls ++ [(pageNum, pageSize)], all ++ data, none⟩
      else
        QueryAll.loop pageSize query fuel (wrapInt (pageNum + 1)) (all ++ data)
          (calls ++ [(pageNum, pageSize)])

/-- `QueryAll`: the generic pagination function. -/
def QueryAll {T ε : Type} (fuel : Nat) (pageSize : Int)
    (query : Int → Int → List T × Int × Option (Error ε)) : Option (PagerRun T ε) :=
  if pageSize ≤ 0 then some ⟨[], [], some Error.pageSizeNotPositive⟩
  else QueryAll.loop pageSize query fuel 1 [] []

/-- `Int32Value`: the pointed-to value, `0` for `nil`. -/
def Int32Value (v : Option Int) : Int :=
  match v with
  | none => 0
  | some x => x

/-- `StringValue`: the pointed-to string, the empty string for `nil`. -/
def StringValue (v : Option (List Char)) : List Char :=
  match v with
  | none => []
  | some x => x

/-- `escapeTXTRecordValue`. -/
def escapeTXTRecordValue (value : List Char) : List Char :=
  let v := strings.TrimSpace value
  let v := if strings.HasPrefix v (strings.dquote :: "heritage=".toList)
    then strings.Trim v [strings.dquote] else v
  strings.ReplaceAll v [strings.dquote] []

/-- `unescapeTXTRecordValue`. -/
def unescapeTXTRecordValue (value : List Char) : List Char :=
  strings.TrimSpace (strings.Trim value [strings.dquote])

/-! ## `solver.go` -/

/-- The fields of the SDK type `dns.ZoneForListZonesOutput` the solver reads. -/
structure Zone where
  ZID : Option Int
  ZoneName : Option (List Char)
  deriving DecidableEq, Repr

/-- The fields of the SDK type `dns.RecordForListRecordsOutput` the solver reads (`Type_` is
the Go field `Type`). -/
structure Record where
  RecordID : Option (List Char)
  Host : Option (List Char)
  Type_ : Option (List Char)
  Value : Option (List Char)
  deriving DecidableEq, Repr

/-- `ZoneInfo`. -/
structure ZoneInfo where
  ID : Int
  Name : List Char
  deriving DecidableEq, Repr

/-- The fields of `Config` that zone resolution reads (the secret references only feed
credential resolution). -/
structure Config where
  Region : List Char
  ZoneID : List Char
  RoleTRN : List Char
  deriving DecidableEq, Repr

/-- The fields of `v1alpha1.ChallengeRequest` the solver reads after the configuration
has been decoded. -/
structure ChallengeRequest where
  ResolvedFQDN : List Char
  Key : List Char
  deriving DecidableEq, Repr

/-- The operations of a provider client (`dnsAPI`, as `DNSWrapper` offers them) with the
outcome of each call. -/
structure dnsAPI (ε : Type) where
  ListZones : Except (Error ε) (List Zone)
  GetRecords : Int → List Char → Except (Error ε) (List Record)
  CreateRecord : Int → List Char → List Char → List Char → Int → Option (Error ε)
  DeleteRecord : Int → List Char → Option (Error ε)

/-- A call made on the provider client. -/
inductive Call where
  | ListZones
  | GetRecords (zid : Int) (host : List Char)
  | CreateRecord (zoneID : Int) (host recordType target : List Char) (TTL : Int)
  | DeleteRecord (zoneID : Int) (recordID : List Char)
  deriving DecidableEq, Repr

/-- `extractHost`. -/
def extractHost (fqdn zoneName : List Char) : List Char :=
  let fqdn := strings.TrimSuffix fqdn [strings.dot]
  let zoneName := strings.TrimSuffix zoneName [strings.dot]
  if fqdn = zoneName then "@".toList
  else if strings.HasSuffix fqdn (strings.dot :: zoneName) then
    strings.TrimSuffix fqdn (strings.dot :: zoneName)
  else fqdn

/-- The test of `findZoneID` on one listed zone: the trimmed `fqdn` is the trimmed zone
name or ends with `"." + zoneName`. -/
def findZoneID.isMatch (fqdn : List Char) (z : Zone) : Bool :=
  let zoneName := strings.TrimSuffix (StringValue z.ZoneName) [strings.dot]
  fqdn == zoneName || strings.HasSuffix fqdn (strings.dot :: zoneName)

/-- One iteration of the `for` loop of `findZoneID` on the state `(match, longestLen)`. -/
def findZoneID.step (fqdn : List Char) (st : Option Zone × Nat) (z : Zone) :
    Option Zone × Nat :=
  let zoneName := strings.TrimSuffix (StringValue z.ZoneName) [strings.dot]
  if findZoneID.isMatch fqdn z then
    if strings.len zoneName > st.2 then (some z, strings.len zoneName) else st
  else st

/-- The `for` loop of `findZoneID`, from `match = nil`, `longestLen = 0`. -/
def findZoneID.loop (fqdn : List Char) (zones : List Zone) : Option Zone × Nat :=
  zones.foldl (findZoneID.step fqdn) (none, 0)

/-- `Solver.findZoneID`. -/
def findZoneID {ε : Type} (client : dnsAPI ε) (fqdn : List Char) :
    List Call × Except (Error ε) ZoneInfo :=
  match client.ListZones with
  | .error err => ([Call.ListZones], .error err)
  | .ok zones =>
    let fqdn := strings.TrimSuffix fqdn [strings.dot]
    match (findZoneID.loop fqdn zones).1 with
    | none => ([Call.ListZones], .error (Error.noMatchingZone fqdn))
    | some z => ([Call.ListZones], .ok ⟨Int32Value z.ZID, StringValue z.ZoneName⟩)

/-- The `for` loop of the pinned branch of `getZoneID`: the first zone with the id. -/
def getZoneID.loop (zid : Int) : List Zone → Option ZoneInfo
  | [] => none
  | z :: zs =>
    if Int32Value z.ZID = zid then some ⟨zid, StringValue z.ZoneName⟩
    else getZoneID.loop zid zs

/-- `Solver.getZoneID`. -/
def getZoneID {ε : Type} (client : dnsAPI ε) (cfg : Config) (fqdn : List Char) :
    List Call × Except (Error ε) ZoneInfo :=
  if cfg.ZoneID ≠ [] then
    match strconv.ParseInt cfg.ZoneID with
    | none => ([], .error (Error.invalidZoneIDFormat cfg.ZoneID))
    | some zid =>
      match client.ListZones with
      | .error err => ([Call.ListZones], .error err)
      | .ok zones =>
        match getZoneID.loop zid zones with
        | some info => ([Call.ListZones], .ok info)
        | none => ([Call.ListZones], .error (Error.zoneIDNotFound cfg.ZoneID))
  else findZoneID client fqdn

/-- `Solver.Present`, from zone resolution on (configuration decoded, client built). -/
def Present {ε : Type} (client : dnsAPI ε) (cfg : Config) (ch : ChallengeRequest) :
    List Call × Option (Error ε) :=
  match getZoneID client cfg ch.ResolvedFQDN with
  | (calls, .error err) => (calls, some err)
  | (calls, .ok zoneID) =>
    let host := extractHost ch.ResolvedFQDN zoneID.Name
    let val := escapeTXTRecordValue ch.Key
    (calls ++ [Call.CreateRecord zoneID.ID host "TXT".toList val 300],
      client.CreateRecord zoneID.ID host "TXT".toList val 300)

/-- The test of the `for` loop of `CleanUp` on one listed record. -/
def CleanUp.isMatch (host key : List Char) (r : Record) : Bool :=
  if StringValue r.Type_ = "TXT".toList ∧ StringValue r.Host = host then
    let rVal := StringValue r.Value
    let val := escapeTXTRecordValue key
    rVal == val || unescapeTXTRecordValue rVal == key
  else false

/-- The `for` loop of `CleanUp`: the first listed record that passes the test, which is
the record the loop deletes; `none` when the loop falls through. -/
def CleanUp.loop (host key : List Char) : List Record → Option Record
  | [] => none
  | r :: rs => if CleanUp.isMatch host key r then some r else CleanUp.loop host key rs

/-- `Solver.CleanUp`, from zone resolution on (configuration decoded, client built). -/
def CleanUp {ε : Type} (client : dnsAPI ε) (cfg : Config) (ch : ChallengeRequest) :
    List Call × Option (Error ε) :=
  match getZoneID client cfg ch.ResolvedFQDN with
  | (calls, .error err) => (calls, some err)
  | (calls, .ok zoneID) =>
    let host := extractHost ch.ResolvedFQDN zoneID.Name
    match client.GetRecords zoneID.ID host with
    | .error err => (calls ++ [Call.GetRecords zoneID.ID host], some err)
    | .ok records =>
      match CleanUp.loop host ch.Key records with
      | some r =>
        (calls ++ [Call.GetRecords zoneID.ID host,
            Call.DeleteRecord zoneID.ID (StringValue r.RecordID)],
          client.DeleteRecord zoneID.ID (StringValue r.RecordID))
      | none => (calls ++ [Call.GetRecords zoneID.ID host], none)

/-! ## A model of the provider behind the client -/

/-- State of the DNS provider service as the solver can observe it: the zone listing, the
records with their ids, and `listed zid host r`, which says whether a record listing
asked for zone `zid` with host filter `host` returns the record `r` (a provider that ignores
the host filter answers `true` whatever the host). -/
structure Provider where
  zones : List Zone
  records : List Record
  listed : Int → List Char → Record → Bool

/-- The provider state after a successful delete of `recordID`: exactly the records with
that id are gone. -/
def Provider.delete (p : Provider) (recordID : List Char) : Provider :=
  { p with records := p.records.filter (fun r => StringValue r.RecordID != recordID) }

/-- The client of a provider state: listings succeed, the delete of a listed id succeeds and
the delete of an unknown id is reported as an error. Record creation is accepted; `CleanUp`
never asks for it. -/
def Provider.client (p : Provider) : dnsAPI Unit where
  ListZones := .ok p.zones
  GetRecords := fun zid host => .ok (p.records.filter (p.listed zid host))
  CreateRecord := fun _ _ _ _ _ => none
  DeleteRecord := fun _ recordID =>
    if p.records.any (fun r => StringValue r.RecordID == recordID) then none
    else some (Error.ext ())

/-- The provider state after the calls of a `CleanUp`: a delete call removes its record,
the listing calls change nothing. -/
def Provider.afterCalls (p : Provider) : List Call → Provider
  | [] => p
  | Call.DeleteRecord _ recordID :: cs => (p.delete recordID).afterCalls cs
  | _ :: cs => p.afterCalls cs

/-- The number of delete calls in a call list. -/
def deleteCalls : List Call → Nat
  | [] => 0
  | Call.DeleteRecord _ _ :: cs => deleteCalls cs + 1
  | _ :: cs => deleteCalls cs

/-- The number of create-record calls in a call list. -/
def createCalls : List Call → Nat
  | [] => 0
  | Call.CreateRecord _ _ _ _ _ :: cs => createCalls cs + 1
  | _ :: cs => createCalls cs

/-- Two `CleanUp` calls in succession for the same challenge against a provider state:
the calls and result of the first, the calls and result of the second. -/
def CleanUpTwice (p : Provider) (cfg : Config) (ch : ChallengeRequest) :
    (List Call × Option (Error Unit)) × (List Call × Option (Error Unit)) :=
  let first := CleanUp p.client cfg ch
  let second := CleanUp (p.afterCalls first.1).client cfg ch
  (first, second)

/-! ## The characters of an ACME token -/

/-- The base64url alphabet: `A-Z`, `a-z`, `0-9`, `-` and `_`. -/
def isBase64URL (c : Char) : Bool :=
  let n := c.toNat
  (65 ≤ n && n ≤ 90) || (97 ≤ n && n ≤ 122) || (48 ≤ n && n ≤ 57) || n == 45 || n == 95

/-! ## The reading of `unescape` in the specification -/

/-- The specification's wording of `unescape`, for comparison with
`unescapeTXTRecordValue`: white space is trimmed first, then one leading and one trailing
double quote are removed. -/
def unescapeTXTRecordValue_asSpecified (value : List Char) : List Char :=
  let v := strings.TrimSpace value
  let v := match v with
    | [] => []
    | c :: cs => if c = strings.dquote then cs else c :: cs
  if v.getLast? = some strings.dquote then v.dropLast else v

/-! ## Challenge data used as examples -/

/-- A zone listing with the single zone `example.com`, id `1`. -/
def acmeZones : List Zone := [⟨some 1, some "example.com".toList⟩]

/-- A TXT record at host `_acme-challenge` with the given id and stored value. -/
def acmeRecord (recordID value : String) : Record :=
  ⟨some recordID.toList, some "_acme-challenge".toList, some "TXT".toList, some value.toList⟩

/-- The challenge for `_acme-challenge.example.com.` with the given key. -/
def acmeChallenge (key : String) : ChallengeRequest :=
  ⟨"_acme-challenge.example.com.".toList, key.toList⟩

/-- A configuration without a pinned zone id. -/
def unpinned : Config := ⟨[], [], []⟩

/-! ## Page functions used as examples -/

/-- A page function that serves the list `xs` in pages: page `pageNum` holds the next
`pageSize` items (fewer on the last page) and every page reports the length of `xs`. -/
def servePages {T ε : Type} (xs : List T) (pageNum pageSize : Int) :
    List T × Int × Option (Error ε) :=
  ((xs.drop ((pageNum.toNat - 1) * pageSize.toNat)).take pageSize.toNat, (xs.length : Int), none)

/-- A page function whose third page fails; the pages before it report a total of `10`. -/
def failingPages (pageNum _pageSize : Int) : List Nat × Int × Option (Error Unit) :=
  if pageNum = 3 then ([], 0, some (Error.ext ())) else ([pageNum.toNat], 10, none)

/-- A page function that reports a total of `2^62 + 3` on every page and serves one item
per page, the page number. -/
def hugeTotalPages (pageNum _pageSize : Int) : List Nat × Int × Option (Error Unit) :=
  ([pageNum.toNat], 2 ^ 62 + 3, none)

/-- A page function that reports a total of `5` and serves one item on page 1, none on
page 2 and two items afterwards. -/
def shortPages (pageNum _pageSize : Int) : List Nat × Int × Option (Error Unit) :=
  if pageNum = 1 then ([10], 5, none)
  else if pageNum = 2 then ([], 5, none)
  else ([30, 31], 5, none)

end volcengine

/-! ## Lemmas on the string primitives -/

namespace strings

theorem hasSuffix_iff (s suffix : List Char) : HasSuffix s suffix = true ↔ suffix <:+ s := by
  unfold HasSuffix
  exact List.isSuffixOf_iff_suffix

theorem hasPrefix_iff (s pre : List Char) : HasPrefix s pre = true ↔ pre <+: s := by
  unfold HasPrefix
  exact List.isPrefixOf_iff_prefix

theorem trimSuffix_append (h suffix : List Char) : TrimSuffix (h ++ suffix) suffix = h := by
  have hs : HasSuffix (h ++ suffix) suffix = true :=
    (hasSuffix_iff _ _).2 (List.suffix_append h suffix)
  simp [TrimSuffix, hs]

theorem trimSuffix_of_not (s suffix : List Char) (h : ¬ suffix <:+ s) :
    TrimSuffix s suffix = s := by
  have hs : HasSuffix s suffix = false := by
    cases hb : HasSuffix s suffix
    · rfl
    · exact absurd ((hasSuffix_iff _ _).1 hb) h
  simp [TrimSuffix, hs]

theorem len_nil : len [] = 0 := rfl

theorem len_cons (c : Char) (s : List Char) : len (c :: s) = c.utf8Size + len s := by
  simp [len]

theorem len_append (a b : List Char) : len (a ++ b) = len a + len b := by
  simp [len]

theorem len_pos_of_ne_nil (s : List Char) (h : s ≠ []) : 0 < len s := by
  cases s with
  | nil => exact absurd rfl h
  | cons c cs =>
    have := Char.utf8Size_pos c
    rw [len_cons]
    omega

theorem len_eq_zero_iff (s : List Char) : len s = 0 ↔ s = [] := by
  constructor
  · intro h
    by_contra hne
    have := len_pos_of_ne_nil s hne
    omega
  · intro h
    rw [h]
    rfl

theorem len_le_of_suffix (a s : List Char) (h : a <:+ s) : len a ≤ len s := by
  obtain ⟨t, rfl⟩ := h
  rw [len_append]
  omega

theorem len_lt_of_cons_suffix (c : Char) (a s : List Char) (h : (c :: a) <:+ s) :
    len a < len s := by
  have h1 := len_le_of_suffix _ _ h
  rw [len_cons] at h1
  have := Char.utf8Size_pos c
  omega

theorem replaceScan_single (q : Char) (s : List Char) :
    replaceScan [q] [] 0 s = s.filter (fun c => c != q) := by
  induction s with
  | nil => rfl
  | cons c cs ih =>
    by_cases h : q = c
    · subst h
      simp [replaceScan, ih]
    · have h2 : ¬ c = q := fun e => h e.symm
      simp [replaceScan, ih, h, h2]

theorem replaceAll_single (q : Char) (s : List Char) :
    ReplaceAll s [q] [] = s.filter (fun c => c != q) := by
  simp [ReplaceAll, replaceScan_single]

theorem filter_dropWhile_not (p : Char → Bool) (s : List Char) :
    (s.dropWhile p).filter (fun c => !p c) = s.filter (fun c => !p c) := by
  induction s with
  | nil => rfl
  | cons c cs ih =>
    by_cases h : p c = true
    · simp [List.dropWhile_cons, h, ih]
    · simp [List.dropWhile_cons, h]

theorem filter_rdropWhile_not (p : Char → Bool) (s : List Char) :
    (s.rdropWhile p).filter (fun c => !p c) = s.filter (fun c => !p c) := by
  unfold List.rdropWhile
  rw [List.filter_reverse, filter_dropWhile_not, ← List.filter_reverse, List.reverse_reverse]

theorem filter_trim_single (q : Char) (s : List Char) :
    (Trim s [q]).filter (fun c => c != q) = s.filter (fun c => c != q) := by
  have hp : (fun c : Char => c != q) = (fun c => !([q].contains c)) := by
    funext c
    by_cases h : c = q <;> simp [h]
  unfold Trim
  rw [hp, filter_rdropWhile_not, filter_dropWhile_not]

theorem dropWhile_decomp (p : Char → Bool) (l : List Char) :
    ∃ t, l = t ++ l.dropWhile p ∧ (∀ c ∈ t, p c = true) ∧
      ∀ c, (l.dropWhile p).head? = some c → p c = false := by
  induction l with
  | nil => exact ⟨[], rfl, by simp, by simp⟩
  | cons a l ih =>
    obtain ⟨t, h1, h2, h3⟩ := ih
    by_cases h : p a = true
    · refine ⟨a :: t, ?_, ?_, ?_⟩
      · simp only [List.dropWhile_cons, h, if_true, List.cons_append]
        rw [← h1]
      · intro c hc
        rcases List.mem_cons.1 hc with rfl | hc
        · exact h
        · exact h2 c hc
      · intro c hc
        simp only [List.dropWhile_cons, h, if_true] at hc
        exact h3 c hc
    · refine ⟨[], ?_, by simp, ?_⟩
      · simp [List.dropWhile_cons, h]
      · intro c hc
        simp only [List.dropWhile_cons, h] at hc
        simp at hc
        subst hc
        simpa using h

theorem rdropWhile_decomp (p : Char → Bool) (l : List Char) :
    ∃ t, l = l.rdropWhile p ++ t ∧ (∀ c ∈ t, p c = true) ∧
      ∀ c, (l.rdropWhile p).getLast? = some c → p c = false := by
  induction l using List.reverseRecOn with
  | nil => exact ⟨[], by simp, by simp, by simp⟩
  | append_singleton l a ih =>
    obtain ⟨t, h1, h2, h3⟩ := ih
    by_cases h : p a = true
    · refine ⟨t ++ [a], ?_, ?_, ?_⟩
      · rw [List.rdropWhile_concat_pos _ _ _ h, ← List.append_assoc, ← h1]
      · intro c hc
        rcases List.mem_append.1 hc with hc | hc
        · exact h2 c hc
        · have : c = a := by simpa using hc
          subst this
          exact h
      · intro c hc
        rw [List.rdropWhile_concat_pos _ _ _ h] at hc
        exact h3 c hc
    · refine ⟨[], ?_, by simp, ?_⟩
      · rw [List.rdropWhile_concat_neg _ _ _ h]
        simp
      · intro c hc
        rw [List.rdropWhile_concat_neg _ _ _ h] at hc
        simp at hc
        subst hc
        simpa using h

theorem head_mono (a l : List Char) (c : Char) (h : a <+: l) (hc : a.head? = some c) :
    l.head? = some c := by
  obtain ⟨t, rfl⟩ := h
  cases a with
  | nil => simp at hc
  | cons x xs => simpa using hc

/-- What two-sided trimming by a predicate leaves: the input is `left ++ kept ++ right`
with `left` and `right` made of trimmed characters only, and `kept` neither starts nor
ends with a trimmed character. -/
theorem trim_decomp (p : Char → Bool) (l : List Char) :
    ∃ left right, l = left ++ (l.dropWhile p).rdropWhile p ++ right ∧
      (∀ c ∈ left, p c = true) ∧ (∀ c ∈ right, p c = true) ∧
      (∀ c, ((l.dropWhile p).rdropWhile p).head? = some c → p c = false) ∧
      (∀ c, ((l.dropWhile p).rdropWhile p).getLast? = some c → p c = false) := by
  obtain ⟨left, h1, h2, h3⟩ := dropWhile_decomp p l
  obtain ⟨right, g1, g2, g3⟩ := rdropWhile_decomp p (l.dropWhile p)
  refine ⟨left, right, ?_, h2, g2, ?_, g3⟩
  · rw [List.append_assoc, ← g1, ← h1]
  · intro c hc
    exact h3 c (head_mono _ _ c (List.rdropWhile_prefix p _) hc)

end strings

namespace volcengine

/-- The test of `findZoneID` on a listing entry, as a statement on lists. -/
theorem isMatch_iff (f : List Char) (z : Zone) :
    findZoneID.isMatch f z = true ↔
      (f = strings.TrimSuffix (StringValue z.ZoneName) [strings.dot] ∨
        (strings.dot :: strings.TrimSuffix (StringValue z.ZoneName) [strings.dot]) <:+ f) := by
  simp [findZoneID.isMatch, strings.hasSuffix_iff]

/-- Invariant of the loop of `findZoneID` after any part of the listing: `longestLen`
bounds the length of every match seen, a recorded match was seen, matches and has
exactly that positive length, and without a recorded match `longestLen` is `0`. -/
theorem findZoneID_loop_inv (f : List Char) (zones : List Zone) :
    (∀ z ∈ zones, findZoneID.isMatch f z = true →
        strings.len (strings.TrimSuffix (StringValue z.ZoneName) [strings.dot])
          ≤ (findZoneID.loop f zones).2) ∧
    (∀ z, (findZoneID.loop f zones).1 = some z →
        z ∈ zones ∧ findZoneID.isMatch f z = true ∧
        strings.len (strings.TrimSuffix (StringValue z.ZoneName) [strings.dot])
          = (findZoneID.loop f zones).2 ∧ 0 < (findZoneID.loop f zones).2) ∧
    ((findZoneID.loop f zones).1 = none → (findZoneID.loop f zones).2 = 0) := by
  induction zones using List.reverseRecOn with
  | nil => simp [findZoneID.loop]
  | append_singleton l a ih =>
    obtain ⟨ih1, ih2, ih3⟩ := ih
    have hstep : findZoneID.loop f (l ++ [a])
        = findZoneID.step f (findZoneID.loop f l) a := by
      simp [findZoneID.loop, List.foldl_append]
    rw [hstep]
    unfold findZoneID.step
    by_cases hm : findZoneID.isMatch f a = true
    · by_cases hlen : strings.len (strings.TrimSuffix (StringValue a.ZoneName) [strings.dot])
          > (findZoneID.loop f l).2
      · simp only [hm, hlen, if_true]
        refine ⟨?_, ?_, ?_⟩
        · intro z hz hzm
          rcases List.mem_append.1 hz with hz | hz
          · have := ih1 z hz hzm
            omega
          · have : z = a := by simpa using hz
            subst this
            exact le_refl _
        · intro z hz
          have : z = a := by
            have := Option.some.inj hz
            exact this.symm
          subst this
          refine ⟨by simp, hm, rfl, ?_⟩
          show 0 < strings.len _
          omega
        · intro h
          simp at h
      · simp only [hm, hlen, if_true, if_false]
        refine ⟨?_, ?_, ?_⟩
        · intro z hz hzm
          rcases List.mem_append.1 hz with hz | hz
          · exact ih1 z hz hzm
          · have : z = a := by simpa using hz
            subst this
            omega
        · intro z hz
          obtain ⟨h1, h2, h3, h4⟩ := ih2 z hz
          exact ⟨List.mem_append.2 (Or.inl h1), h2, h3, h4⟩
        · exact ih3
    · simp only [hm]
      refine ⟨?_, ?_, ?_⟩
      · intro z hz hzm
        rcases List.mem_append.1 hz with hz | hz
        · exact ih1 z hz hzm
        · have : z = a := by simpa using hz
          subst this
          exact absurd hzm hm
      · intro z hz
        obtain ⟨h1, h2, h3, h4⟩ := ih2 z hz
        exact ⟨List.mem_append.2 (Or.inl h1), h2, h3, h4⟩
      · exact ih3

/-- C1 (longest-suffix match). When the zone listing succeeds and `findZoneID` returns a
zone, that zone is an entry of the listing, it matches the fqdn (after one trailing dot is
stripped from both, the fqdn is the zone name or ends with `"." ++ zoneName`), and its
stripped name is at least as long as the stripped name of every matching entry of the
listing. The listing is arbitrary, so the order of its entries does not matter. -/
theorem findZoneID_longest_suffix_match {ε : Type} (client : dnsAPI ε) (zones : List Zone)
    (fqdn : List Char) (info : ZoneInfo)
    (hlist : client.ListZones = .ok zones)
    (hok : (findZoneID client fqdn).2 = .ok info) :
    ∃ z ∈ zones, info = ⟨Int32Value z.ZID, StringValue z.ZoneName⟩ ∧
      (strings.TrimSuffix fqdn [strings.dot] = strings.TrimSuffix info.Name [strings.dot] ∨
        (strings.dot :: strings.TrimSuffix info.Name [strings.dot])
          <:+ strings.TrimSuffix fqdn [strings.dot]) ∧
      ∀ z' ∈ zones,
        (strings.TrimSuffix fqdn [strings.dot]
            = strings.TrimSuffix (StringValue z'.ZoneName) [strings.dot] ∨
          (strings.dot :: strings.TrimSuffix (StringValue z'.ZoneName) [strings.dot])
            <:+ strings.TrimSuffix fqdn [strings.dot]) →
        strings.len (strings.TrimSuffix (StringValue z'.ZoneName) [strings.dot])
          ≤ strings.len (strings.TrimSuffix info.Name [strings.dot]) := by
  obtain ⟨h1, h2, _⟩ := findZoneID_loop_inv (strings.TrimSuffix fqdn [strings.dot]) zones
  unfold findZoneID at hok
  rw [hlist] at hok
  simp only at hok
  cases hm : (findZoneID.loop (strings.TrimSuffix fqdn [strings.dot]) zones).1 with
  | none =>
    rw [hm] at hok
    cases hok
  | some z =>
    rw [hm] at hok
    obtain ⟨hz, hzm, hlen, _⟩ := h2 z hm
    have hinfo : info = ⟨Int32Value z.ZID, StringValue z.ZoneName⟩ := by
      injection hok with h
      exact h.symm
    refine ⟨z, hz, hinfo, ?_, ?_⟩
    · rw [hinfo]
      exact (isMatch_iff _ z).1 hzm
    · intro z' hz' hmatch
      rw [hinfo]
      have := h1 z' hz' ((isMatch_iff _ z').2 hmatch)
      show _ ≤ strings.len (strings.TrimSuffix (StringValue z.ZoneName) [strings.dot])
      omega

/-- Witness of C1: the listing `example.com`, `sub.example.com` (in this order and in the
other) and the fqdn `foo.sub.example.com` select `sub.example.com`. -/
theorem findZoneID_longest_suffix_match_witness :
    (findZoneID (Provider.client ⟨[⟨some 1, some "example.com".toList⟩,
        ⟨some 2, some "sub.example.com".toList⟩], [], fun _ _ _ => true⟩)
        "foo.sub.example.com".toList).2 = .ok ⟨2, "sub.example.com".toList⟩ ∧
    (findZoneID (Provider.client ⟨[⟨some 2, some "sub.example.com".toList⟩,
        ⟨some 1, some "example.com".toList⟩], [], fun _ _ _ => true⟩)
        "foo.sub.example.com".toList).2 = .ok ⟨2, "sub.example.com".toList⟩ ∧
    ∃ z ∈ [(⟨some 1, some "example.com".toList⟩ : Zone),
        ⟨some 2, some "sub.example.com".toList⟩],
      (⟨2, "sub.example.com".toList⟩ : ZoneInfo) = ⟨Int32Value z.ZID, StringValue z.ZoneName⟩ :=
  ⟨by rfl, by rfl,
    (findZoneID_longest_suffix_match
      (Provider.client ⟨[⟨some 1, some "example.com".toList⟩,
        ⟨some 2, some "sub.example.com".toList⟩], [], fun _ _ _ => true⟩)
      [⟨some 1, some "example.com".toList⟩, ⟨some 2, some "sub.example.com".toList⟩]
      "foo.sub.example.com".toList ⟨2, "sub.example.com".toList⟩ rfl (by rfl)).imp
      (fun _ h => ⟨h.1, h.2.1⟩)⟩

/-! ## The pager -/

/-- Inside the 64-bit range `wrapInt` changes nothing. -/
theorem wrapInt_of_range (x : Int) (h1 : -2 ^ 63 ≤ x) (h2 : x ≤ maxInt) : wrapInt x = x := by
  unfold wrapInt
  unfold maxInt at h2
  omega

/-- One iteration of the pager loop on a page that fails. -/
theorem QueryAll_loop_error {T ε : Type} (pageSize : Int)
    (query : Int → Int → List T × Int × Option (Error ε)) (fuel : Nat) (pageNum : Int)
    (all : List T) (calls : List (Int × Int)) (e : Error ε)
    (herr : (query pageNum pageSize).2.2 = some e) :
    QueryAll.loop pageSize query (fuel + 1) pageNum all calls
      = some ⟨calls ++ [(pageNum, pageSize)], [], some e⟩ := by
  rcases hq : query pageNum pageSize with ⟨data, total, err⟩
  rw [hq] at herr
  simp only at herr
  subst herr
  simp [QueryAll.loop, hq]

/-- One iteration of the pager loop on a page that meets the stop test. -/
theorem QueryAll_loop_stop {T ε : Type} (pageSize : Int)
    (query : Int → Int → List T × Int × Option (Error ε)) (fuel : Nat) (pageNum : Int)
    (all : List T) (calls : List (Int × Int))
    (hok : (query pageNum pageSize).2.2 = none)
    (hstop : QueryAll.stop pageNum pageSize (query pageNum pageSize).2.1 = true) :
    QueryAll.loop pageSize query (fuel + 1) pageNum all calls
      = some ⟨calls ++ [(pageNum, pageSize)], all ++ (query pageNum pageSize).1, none⟩ := by
  rcases hq : query pageNum pageSize with ⟨data, total, err⟩
  rw [hq] at hok hstop
  simp only at hok hstop
  subst hok
  simp [QueryAll.loop, hq, hstop]

/-- One iteration of the pager loop on a page that neither fails nor meets the stop test. -/
theorem QueryAll_loop_next {T ε : Type} (pageSize : Int)
    (query : Int → Int → List T × Int × Option (Error ε)) (fuel : Nat) (pageNum : Int)
    (all : List T) (calls : List (Int × Int))
    (hok : (query pageNum pageSize).2.2 = none)
    (hstop : QueryAll.stop pageNum pageSize (query pageNum pageSize).2.1 = false) :
    QueryAll.loop pageSize query (fuel + 1) pageNum all calls
      = QueryAll.loop pageSize query fuel (wrapInt (pageNum + 1))
          (all ++ (query pageNum pageSize).1) (calls ++ [(pageNum, pageSize)]) := by
  rcases hq : query pageNum pageSize with ⟨data, total, err⟩
  rw [hq] at hok hstop
  simp only at hok hstop
  subst hok
  simp [QueryAll.loop, hq, hstop]

/-- The pager loop across `j` pages, none of which fails or meets the stop test. -/
theorem QueryAll_loop_advance {T ε : Type} (pageSize : Int)
    (query : Int → Int → List T × Int × Option (Error ε)) :
    ∀ (j fuel s : Nat) (all : List T) (calls : List (Int × Int)),
      ((s + j : Nat) : Int) ≤ maxInt →
      (∀ i, i < j → (query ((s + i : Nat) : Int) pageSize).2.2 = none ∧
        QueryAll.stop ((s + i : Nat) : Int) pageSize
          (query ((s + i : Nat) : Int) pageSize).2.1 = false) →
      QueryAll.loop pageSize query (fuel + j) (s : Int) all calls
        = QueryAll.loop pageSize query fuel ((s + j : Nat) : Int)
            (all ++ (List.range j).flatMap (fun i => (query ((s + i : Nat) : Int) pageSize).1))
            (calls ++ (List.range j).map (fun i => (((s + i : Nat) : Int), pageSize))) := by
  intro j
  induction j with
  | zero =>
    intro fuel s all calls _ _
    simp
  | succ j ih =>
    intro fuel s all calls hmax hpre
    have h0 := hpre 0 (Nat.succ_pos j)
    simp only [Nat.add_zero] at h0
    have hfuel : fuel + (j + 1) = (fuel + j) + 1 := by omega
    rw [hfuel, QueryAll_loop_next pageSize query (fuel + j) s all calls h0.1 h0.2]
    have hw : wrapInt ((s : Int) + 1) = ((s + 1 : Nat) : Int) := by
      rw [wrapInt_of_range]
      · push_cast; rfl
      · have : (0 : Int) ≤ (s : Int) := Int.ofNat_nonneg s
        omega
      · unfold maxInt at hmax ⊢
        push_cast at hmax
        omega
    rw [hw, ih fuel (s + 1) _ _ (by rw [show s + 1 + j = s + (j + 1) by omega]; exact hmax)
      (fun i hi => by
        have := hpre (i + 1) (by omega)
        rw [show s + 1 + i = s + (i + 1) by omega]
        exact this)]
    have e1 : s + 1 + j = s + (j + 1) := by omega
    have hf : (fun i : Nat => (query ((s + 1 + i : Nat) : Int) pageSize).1)
        = (fun i : Nat => (query ((s + i : Nat) : Int) pageSize).1) ∘ Nat.succ := by
      funext i
      simp only [Function.comp, Nat.succ_eq_add_one]
      rw [show s + 1 + i = s + (i + 1) by omega]
    have hg : (fun i : Nat => ((((s + 1 + i : Nat) : Int)), pageSize))
        = (fun i : Nat => ((((s + i : Nat) : Int)), pageSize)) ∘ Nat.succ := by
      funext i
      simp only [Function.comp, Nat.succ_eq_add_one]
      rw [show s + 1 + i = s + (i + 1) by omega]
    have e2 : all ++ (query (s : Int) pageSize).1
          ++ (List.range j).flatMap (fun i => (query ((s + 1 + i : Nat) : Int) pageSize).1)
        = all ++ (List.range (j + 1)).flatMap
            (fun i => (query ((s + i : Nat) : Int) pageSize).1) := by
      rw [hf, List.range_succ_eq_map, List.flatMap_cons, List.flatMap_map]
      simp only [Nat.add_zero, List.append_assoc]
      rfl
    have e3 : calls ++ [((s : Int), pageSize)]
          ++ (List.range j).map (fun i => (((s + 1 + i : Nat) : Int), pageSize))
        = calls ++ (List.range (j + 1)).map (fun i => (((s + i : Nat) : Int), pageSize)) := by
      rw [hg, List.range_succ_eq_map, List.map_cons, List.map_map]
      simp only [Nat.add_zero, List.append_assoc, List.singleton_append]
    rw [e1, e2, e3]

/-- The call list of pages `1 .. n + 1`. -/
theorem range_pages (n : Nat) (pageSize : Int) :
    (List.range n).map (fun i => (((1 + i : Nat) : Int), pageSize))
        ++ [(((n + 1 : Nat) : Int), pageSize)]
      = (List.range (n + 1)).map (fun i : Nat => ((i : Int) + 1, pageSize)) := by
  rw [List.range_succ, List.map_append, List.map_singleton]
  have hfun : (fun i : Nat => (((1 + i : Nat) : Int), pageSize))
      = (fun i : Nat => ((i : Int) + 1, pageSize)) := by
    funext i
    push_cast
    rw [add_comm]
  rw [hfun]
  push_cast
  rfl

/-- The pager up to the page that ends the loop: pages `1 .. n` are requested when none
before `n` fails or meets the stop test, and the outcome is decided by page `n`. -/
theorem QueryAll_reaches {T ε : Type} (pageSize : Int)
    (query : Int → Int → List T × Int × Option (Error ε)) (n fuel : Nat)
    (hps : 0 < pageSize) (hn : ((n + 1 : Nat) : Int) ≤ maxInt)
    (hpre : ∀ p : Nat, 1 ≤ p → p < n + 1 → (query (p : Int) pageSize).2.2 = none ∧
        QueryAll.stop (p : Int) pageSize (query (p : Int) pageSize).2.1 = false) :
    QueryAll (fuel + n) pageSize query
      = QueryAll.loop pageSize query fuel ((n + 1 : Nat) : Int)
          ((List.range n).flatMap (fun i => (query ((1 + i : Nat) : Int) pageSize).1))
          ((List.range n).map (fun i => (((1 + i : Nat) : Int), pageSize))) := by
  unfold QueryAll
  rw [if_neg (by omega)]
  have h := QueryAll_loop_advance pageSize query n fuel 1 [] []
    (by rw [Nat.add_comm 1 n]; exact hn)
    (fun i hi => hpre (1 + i) (by omega) (by omega))
  simp only [Nat.cast_one, List.nil_append] at h
  rw [h, Nat.add_comm 1 n]

/-- The items of pages `1 .. n + 1`, in order. -/
theorem range_items {T : Type} (n : Nat) (data : Int → List T) :
    (List.range n).flatMap (fun i => data ((1 + i : Nat) : Int)) ++ data ((n + 1 : Nat) : Int)
      = (List.range (n + 1)).flatMap (fun i : Nat => data ((i : Int) + 1)) := by
  rw [List.range_succ, List.flatMap_append]
  have hfun : (fun i : Nat => data ((1 + i : Nat) : Int))
      = (fun i : Nat => data ((i : Int) + 1)) := by
    funext i
    push_cast
    rw [add_comm]
  rw [hfun]
  simp

/-- The pager ends at the first page that meets the stop test: it has requested pages
`1 .. n` and returns their items in order. -/
theorem QueryAll_until_stop {T ε : Type} (pageSize : Int)
    (query : Int → Int → List T × Int × Option (Error ε)) (n fuel : Nat)
    (hps : 0 < pageSize) (hn1 : 1 ≤ n) (hn : (n : Int) ≤ maxInt)
    (herr : ∀ p : Nat, 1 ≤ p → p ≤ n → (query (p : Int) pageSize).2.2 = none)
    (hmin : ∀ p : Nat, 1 ≤ p → p < n →
      QueryAll.stop (p : Int) pageSize (query (p : Int) pageSize).2.1 = false)
    (hstop : QueryAll.stop (n : Int) pageSize (query (n : Int) pageSize).2.1 = true)
    (hfuel : n ≤ fuel) :
    QueryAll fuel pageSize query
      = some ⟨(List.range n).map (fun i : Nat => ((i : Int) + 1, pageSize)),
          (List.range n).flatMap (fun i : Nat => (query ((i : Int) + 1) pageSize).1), none⟩ := by
  obtain ⟨m, rfl⟩ : ∃ m, n = m + 1 := ⟨n - 1, by omega⟩
  obtain ⟨g, rfl⟩ : ∃ g, fuel = (g + 1) + m := ⟨fuel - (m + 1), by omega⟩
  rw [QueryAll_reaches pageSize query m (g + 1) hps hn
    (fun p h1 h2 => ⟨herr p h1 (by omega), hmin p h1 h2⟩)]
  rw [QueryAll_loop_stop pageSize query g _ _ _ (herr (m + 1) (by omega) (le_refl _)) hstop]
  rw [range_pages, range_items m (fun x => (query x pageSize).1)]

/-- C3 (pager error propagation). For a positive page size and a page function whose pages
`1 .. k-1` succeed without meeting the stop test of the loop and whose page `k` returns
the error `e`, `QueryAll` (with fuel for `k` iterations) calls the page function exactly
`k` times, on pages `1, 2, ..., k` with the given page size, returns the error `e` itself
and returns no items: what pages `1 .. k-1` delivered is dropped. -/
theorem QueryAll_error_propagation {T ε : Type} (pageSize : Int)
    (query : Int → Int → List T × Int × Option (Error ε)) (k fuel : Nat) (e : Error ε)
    (hps : 0 < pageSize) (hk1 : 1 ≤ k) (hk : (k : Int) ≤ maxInt)
    (hpre : ∀ p : Nat, 1 ≤ p → p < k → (query (p : Int) pageSize).2.2 = none ∧
      QueryAll.stop (p : Int) pageSize (query (p : Int) pageSize).2.1 = false)
    (herr : (query (k : Int) pageSize).2.2 = some e)
    (hfuel : k ≤ fuel) :
    QueryAll fuel pageSize query
      = some ⟨(List.range k).map (fun i : Nat => ((i : Int) + 1, pageSize)), [], some e⟩ := by
  obtain ⟨m, rfl⟩ : ∃ m, k = m + 1 := ⟨k - 1, by omega⟩
  obtain ⟨g, rfl⟩ : ∃ g, fuel = (g + 1) + m := ⟨fuel - (m + 1), by omega⟩
  rw [QueryAll_reaches pageSize query m (g + 1) hps hk hpre]
  rw [QueryAll_loop_error pageSize query g _ _ _ e herr]
  rw [range_pages]

/-- C4, amended (pager result and stop rule). For a positive page size and a page function
without errors on pages `1 .. n`, if `n` is the smallest page number with
`n * pageSize >= total reported by page n` and the product `n * pageSize` fits the 64-bit
`int` range, then `QueryAll` (with fuel for `n` iterations) requests exactly pages
`1, 2, ..., n` in this order, each with the given page size, and returns the concatenation
of their items in this order. Nothing is assumed on the length of a page: a short or empty
page does not end the loop. -/
theorem QueryAll_pages_and_stop_rule {T ε : Type} (pageSize : Int)
    (query : Int → Int → List T × Int × Option (Error ε)) (n fuel : Nat)
    (hps : 0 < pageSize) (hn1 : 1 ≤ n)
    (hfit : (n : Int) * pageSize ≤ maxInt)
    (herr : ∀ p : Nat, 1 ≤ p → p ≤ n → (query (p : Int) pageSize).2.2 = none)
    (hmin : ∀ p : Nat, 1 ≤ p → p < n →
      (p : Int) * pageSize < (query (p : Int) pageSize).2.1)
    (hstop : (n : Int) * pageSize ≥ (query (n : Int) pageSize).2.1)
    (hfuel : n ≤ fuel) :
    QueryAll fuel pageSize query
      = some ⟨(List.range n).map (fun i : Nat => ((i : Int) + 1, pageSize)),
          (List.range n).flatMap (fun i : Nat => (query ((i : Int) + 1) pageSize).1), none⟩ := by
  have hnn : (0 : Int) ≤ (n : Int) := Int.ofNat_nonneg n
  have hn : (n : Int) ≤ maxInt :=
    le_trans (le_mul_of_one_le_right hnn (by omega)) hfit
  -- up to page `n` the product does not wrap
  have hnowrap : ∀ p : Nat, p ≤ n → wrapInt ((p : Int) * pageSize) = (p : Int) * pageSize := by
    intro p hp
    have h1 : (p : Int) * pageSize ≤ (n : Int) * pageSize :=
      mul_le_mul_of_nonneg_right (by exact_mod_cast hp) (le_of_lt hps)
    have h2 : (0 : Int) ≤ (p : Int) * pageSize :=
      mul_nonneg (Int.ofNat_nonneg p) (le_of_lt hps)
    apply wrapInt_of_range
    · omega
    · omega
  refine QueryAll_until_stop pageSize query n fuel hps hn1 hn herr ?_ ?_ hfuel
  · intro p h1 h2
    simp only [QueryAll.stop, decide_eq_false_iff_not, ge_iff_le, not_le]
    rw [hnowrap p (by omega)]
    exact hmin p h1 h2
  · simp only [QueryAll.stop, decide_eq_true_eq]
    rw [hnowrap n (le_refl _)]
    exact hstop

/-- Counterexample to C4 as stated: with page size `2^62 + 1` and a page function that
reports the total `2^62 + 3` on every page, `n = 2` is the smallest page number with
`n * pageSize >= total`, yet two iterations do not end the loop: the product of page 2
wraps to a negative `int`, and pages `1 .. 5` are requested before the test passes. -/
theorem QueryAll_pages_and_stop_rule_counterexample :
    (1 : Int) * (2 ^ 62 + 1) < (hugeTotalPages 1 (2 ^ 62 + 1)).2.1 ∧
    (2 : Int) * (2 ^ 62 + 1) ≥ (hugeTotalPages 2 (2 ^ 62 + 1)).2.1 ∧
    QueryAll 2 (2 ^ 62 + 1) hugeTotalPages = none ∧
    QueryAll 5 (2 ^ 62 + 1) hugeTotalPages
      = some ⟨[(1, 2 ^ 62 + 1), (2, 2 ^ 62 + 1), (3, 2 ^ 62 + 1), (4, 2 ^ 62 + 1),
          (5, 2 ^ 62 + 1)], [1, 2, 3, 4, 5], none⟩ :=
  ⟨by decide, by decide, by rfl, by rfl⟩

/-- C2, amended (pager call count). For a positive page size and a page function that
reports the same total count on every page without error, `QueryAll` (with enough fuel)
calls the page function exactly `max 1 (ceil (total / pageSize))` times, as long as the
product of that page number and the page size fits the `int` range. The first page is
always fetched, so a total of `0` costs one call. -/
theorem QueryAll_call_count {T ε : Type} (pageSize total : Nat)
    (query : Int → Int → List T × Int × Option (Error ε)) (fuel : Nat)
    (hps : 0 < pageSize)
    (hq : ∀ p : Nat, 1 ≤ p → (query (p : Int) (pageSize : Int)).2 = ((total : Int), none))
    (hfit : ((max 1 ((total + pageSize - 1) / pageSize) * pageSize : Nat) : Int) ≤ maxInt)
    (hfuel : max 1 ((total + pageSize - 1) / pageSize) ≤ fuel) :
    ∃ run, QueryAll fuel (pageSize : Int) query = some run ∧ run.err = none ∧
      run.calls.length = max 1 ((total + pageSize - 1) / pageSize) := by
  set n := max 1 ((total + pageSize - 1) / pageSize) with hn
  have hn1 : 1 ≤ n := le_max_left _ _
  have hle : n ≤ n * pageSize := Nat.le_mul_of_pos_right n hps
  have hceil1 : (total + pageSize - 1) / pageSize * pageSize ≤ total + pageSize - 1 :=
    Nat.div_mul_le_self _ _
  have hceil2 : total + pageSize - 1 < (total + pageSize - 1) / pageSize * pageSize + pageSize :=
    Nat.lt_div_mul_add hps
  have hnowrap : ∀ p : Nat, p ≤ n → wrapInt ((p : Int) * (pageSize : Int)) = ((p * pageSize : Nat) : Int) := by
    intro p hp
    have h1 : p * pageSize ≤ n * pageSize := Nat.mul_le_mul_right _ hp
    rw [wrapInt_of_range]
    · push_cast; rfl
    · have : (0 : Int) ≤ ((p * pageSize : Nat) : Int) := Int.ofNat_nonneg _
      push_cast at this
      omega
    · have : ((p * pageSize : Nat) : Int) ≤ ((n * pageSize : Nat) : Int) := by exact_mod_cast h1
      push_cast at this hfit ⊢
      omega
  refine ⟨_, QueryAll_until_stop (pageSize : Int) query n fuel (by exact_mod_cast hps) hn1 ?_
    (fun p h1 _ => by rw [hq p h1]) ?_ ?_ hfuel, rfl, by simp⟩
  · have : ((n : Nat) : Int) ≤ ((n * pageSize : Nat) : Int) := by exact_mod_cast hle
    omega
  · intro p h1 h2
    rw [hq p h1]
    simp only [QueryAll.stop, decide_eq_false_iff_not, ge_iff_le, not_le]
    rw [hnowrap p (by omega)]
    have hn2 : n = (total + pageSize - 1) / pageSize := by
      rcases max_cases 1 ((total + pageSize - 1) / pageSize) with ⟨h, _⟩ | ⟨h, _⟩
      · omega
      · exact h
    have h3 : (p + 1) * pageSize ≤ n * pageSize := Nat.mul_le_mul_right _ (by omega)
    rw [hn2] at h3
    have : p * pageSize < total := by
      rw [Nat.add_mul] at h3
      omega
    exact_mod_cast this
  · rw [hq n hn1]
    simp only [QueryAll.stop, decide_eq_true_eq, ge_iff_le]
    rw [hnowrap n (le_refl _)]
    have h3 : (total + pageSize - 1) / pageSize * pageSize ≤ n * pageSize :=
      Nat.mul_le_mul_right _ (le_max_right _ _)
    have : total ≤ n * pageSize := by omega
    exact_mod_cast this

/-- Counterexample to C2 as stated: with a total count of `0` and page size `100` the page
function is called once, while `ceil (0 / 100) = 0`. -/
theorem QueryAll_call_count_counterexample :
    ∃ run : PagerRun Nat Unit, QueryAll 1 100 (servePages []) = some run ∧
      run.calls.length = 1 ∧ run.calls.length ≠ (0 + 100 - 1) / 100 :=
  ⟨_, rfl, rfl, by decide⟩

/-- Witness of C2, amended: seven items in pages of three take three calls. -/
theorem QueryAll_call_count_witness :
    ∃ run : PagerRun Nat Unit, QueryAll 3 ((3 : Nat) : Int) (servePages [1, 2, 3, 4, 5, 6, 7]) = some run ∧
      run.err = none ∧ run.calls.length = max 1 ((7 + 3 - 1) / 3) :=
  QueryAll_call_count 3 7 (servePages [1, 2, 3, 4, 5, 6, 7]) 3 (by decide) (fun _ _ => rfl)
    (by decide) (by decide)

/-- Witness of C3: the third page fails after two good pages; three calls, no items. -/
theorem QueryAll_error_propagation_witness :
    QueryAll 5 2 failingPages = some ⟨[(1, 2), (2, 2), (3, 2)], [], some (Error.ext ())⟩ :=
  QueryAll_error_propagation 2 failingPages 3 5 (Error.ext ()) (by decide) (by decide) (by decide)
    (fun p h1 h2 => by interval_cases p <;> exact ⟨rfl, by decide⟩) rfl (by decide)

/-- Witness of C4, amended: with page size `2` and a total of `5` the loop runs over three
pages, although page 1 is short and page 2 is empty. -/
theorem QueryAll_pages_and_stop_rule_witness :
    QueryAll 3 2 shortPages = some ⟨[(1, 2), (2, 2), (3, 2)], [10, 30, 31], none⟩ :=
  QueryAll_pages_and_stop_rule 2 shortPages 3 3 (by decide) (by decide) (by decide)
    (fun p h1 h2 => by interval_cases p <;> rfl)
    (fun p h1 h2 => by interval_cases p <;> decide) (by decide) (by decide)

/-! ## Host extraction and apex resolution -/

/-- The first branch of `extractHost`: equal stripped names give `"@"`. -/
theorem extractHost_of_eq (fqdn zoneName : List Char)
    (h : strings.TrimSuffix fqdn [strings.dot] = strings.TrimSuffix zoneName [strings.dot]) :
    extractHost fqdn zoneName = "@".toList := by
  simp [extractHost, h]

/-- The second branch of `extractHost`: the host in front of `"." ++ zoneName`. -/
theorem extractHost_of_suffix (fqdn zoneName : List Char)
    (hs : (strings.dot :: strings.TrimSuffix zoneName [strings.dot])
      <:+ strings.TrimSuffix fqdn [strings.dot])
    (hne : strings.TrimSuffix fqdn [strings.dot] ≠ strings.TrimSuffix zoneName [strings.dot]) :
    extractHost fqdn zoneName ++ strings.dot :: strings.TrimSuffix zoneName [strings.dot]
      = strings.TrimSuffix fqdn [strings.dot] := by
  obtain ⟨h, hh⟩ := hs
  have hsuf : strings.HasSuffix (strings.TrimSuffix fqdn [strings.dot])
      (strings.dot :: strings.TrimSuffix zoneName [strings.dot]) = true :=
    (strings.hasSuffix_iff _ _).2 ⟨h, hh⟩
  simp only [extractHost, if_neg hne, hsuf, if_true]
  rw [← hh, strings.trimSuffix_append]

/-- C5 (host extraction). With `f` and `z` the fqdn and the zone name after one trailing dot
is stripped from each: `extractHost` returns `"@"` when `f = z`, and when `f` ends with
`"." ++ z` and differs from `z` it returns the host `h` with `h ++ "." ++ z = f`. -/
theorem extractHost_spec (fqdn zoneName : List Char) :
    (strings.TrimSuffix fqdn [strings.dot] = strings.TrimSuffix zoneName [strings.dot] →
      extractHost fqdn zoneName = "@".toList) ∧
    ((strings.dot :: strings.TrimSuffix zoneName [strings.dot])
        <:+ strings.TrimSuffix fqdn [strings.dot] →
      strings.TrimSuffix fqdn [strings.dot] ≠ strings.TrimSuffix zoneName [strings.dot] →
      extractHost fqdn zoneName ++ strings.dot :: strings.TrimSuffix zoneName [strings.dot]
        = strings.TrimSuffix fqdn [strings.dot]) := by
  constructor
  · intro h
    exact extractHost_of_eq fqdn zoneName h
  · intro hs hne
    exact extractHost_of_suffix fqdn zoneName hs hne

/-- Witness of C5: `extractHost "foo.bar.example.com." "example.com" = "foo.bar"` and
`extractHost "example.com" "example.com" = "@"`. -/
theorem extractHost_spec_witness :
    extractHost "foo.bar.example.com.".toList "example.com".toList = "foo.bar".toList ∧
    extractHost "example.com".toList "example.com".toList = "@".toList ∧
    extractHost "foo.bar.example.com.".toList "example.com".toList
        ++ strings.dot :: strings.TrimSuffix "example.com".toList [strings.dot]
      = strings.TrimSuffix "foo.bar.example.com.".toList [strings.dot] :=
  ⟨by rfl, (extractHost_spec "example.com".toList "example.com".toList).1 (by rfl),
    (extractHost_spec "foo.bar.example.com.".toList "example.com".toList).2
      (by decide) (by decide)⟩

/-- C6, amended (apex resolution). For a zone listing and an fqdn that is not empty after one
trailing dot is stripped, if a listed zone has the same name as the fqdn up to one trailing
dot on either side, then `findZoneID` succeeds with a listed zone whose name equals the
fqdn up to one trailing dot, and `extractHost` on that zone name is `"@"`. -/
theorem findZoneID_apex {ε : Type} (client : dnsAPI ε) (zones : List Zone) (fqdn : List Char)
    (z0 : Zone)
    (hlist : client.ListZones = .ok zones)
    (hne : strings.TrimSuffix fqdn [strings.dot] ≠ [])
    (hz0 : z0 ∈ zones)
    (heq : strings.TrimSuffix (StringValue z0.ZoneName) [strings.dot]
      = strings.TrimSuffix fqdn [strings.dot]) :
    ∃ z ∈ zones,
      findZoneID client fqdn
        = ([Call.ListZones], .ok ⟨Int32Value z.ZID, StringValue z.ZoneName⟩) ∧
      strings.TrimSuffix (StringValue z.ZoneName) [strings.dot]
        = strings.TrimSuffix fqdn [strings.dot] ∧
      extractHost fqdn (StringValue z.ZoneName) = "@".toList := by
  obtain ⟨h1, h2, h3⟩ := findZoneID_loop_inv (strings.TrimSuffix fqdn [strings.dot]) zones
  have hm0 : findZoneID.isMatch (strings.TrimSuffix fqdn [strings.dot]) z0 = true :=
    (isMatch_iff _ z0).2 (Or.inl heq.symm)
  have hlen0 := h1 z0 hz0 hm0
  rw [heq] at hlen0
  have hpos := strings.len_pos_of_ne_nil _ hne
  cases hm : (findZoneID.loop (strings.TrimSuffix fqdn [strings.dot]) zones).1 with
  | none =>
    have := h3 hm
    omega
  | some z =>
    obtain ⟨hz, hzm, hlen, _⟩ := h2 z hm
    have hname : strings.TrimSuffix (StringValue z.ZoneName) [strings.dot]
        = strings.TrimSuffix fqdn [strings.dot] := by
      rcases (isMatch_iff _ z).1 hzm with h | h
      · exact h.symm
      · have := strings.len_lt_of_cons_suffix _ _ _ h
        omega
    refine ⟨z, hz, ?_, hname, ?_⟩
    · unfold findZoneID
      rw [hlist]
      simp only
      rw [hm]
    · exact extractHost_of_eq fqdn (StringValue z.ZoneName) hname.symm

/-- Counterexample to C6 as stated: the fqdn `"."` is not empty and the listed zone `"."`
has exactly its name, yet `findZoneID` fails with the no-matching-zone error: both names
are empty once the dot is stripped, and an empty name never beats `longestLen = 0`. -/
theorem findZoneID_apex_counterexample :
    ("." : String).toList ≠ [] ∧
    findZoneID (Provider.client ⟨[⟨some 1, some ".".toList⟩], [], fun _ _ _ => true⟩) ".".toList
      = ([Call.ListZones], .error (Error.noMatchingZone [])) :=
  ⟨by decide, by rfl⟩

/-- Witness of C6, amended: the fqdn `example.com` against the listing `com`,
`example.com.`. -/
theorem findZoneID_apex_witness :
    ∃ z ∈ [(⟨some 1, some "com".toList⟩ : Zone), ⟨some 7, some "example.com.".toList⟩],
      findZoneID (Provider.client ⟨[⟨some 1, some "com".toList⟩,
          ⟨some 7, some "example.com.".toList⟩], [], fun _ _ _ => true⟩) "example.com".toList
        = ([Call.ListZones], .ok ⟨Int32Value z.ZID, StringValue z.ZoneName⟩) ∧
      strings.TrimSuffix (StringValue z.ZoneName) [strings.dot]
        = strings.TrimSuffix "example.com".toList [strings.dot] ∧
      extractHost "example.com".toList (StringValue z.ZoneName) = "@".toList :=
  findZoneID_apex _ [⟨some 1, some "com".toList⟩, ⟨some 7, some "example.com.".toList⟩]
    "example.com".toList ⟨some 7, some "example.com.".toList⟩ rfl (by decide) (by decide) (by rfl)

/-! ## The value codec -/

/-- The value `escapeTXTRecordValue` returns: the trimmed input without its double quotes. -/
theorem escapeTXTRecordValue_eq_filter (value : List Char) :
    escapeTXTRecordValue value
      = (strings.TrimSpace value).filter (fun c => c != strings.dquote) := by
  unfold escapeTXTRecordValue
  simp only [strings.replaceAll_single]
  split
  · exact strings.filter_trim_single _ _
  · rfl

/-- C7 (escape strips every double quote). For every input, `escapeTXTRecordValue` returns
the white-space-trimmed input with every double quote deleted, so the result holds no
double quote; the branch for a value that starts with `"heritage=` changes nothing beyond
that. On the two examples: the quoted `heritage=abc` gives `heritage=abc`, and `tok"en`
gives `token`. -/
theorem escapeTXTRecordValue_strips_quotes :
    (∀ value : List Char,
      escapeTXTRecordValue value
          = (strings.TrimSpace value).filter (fun c => c != strings.dquote) ∧
        strings.dquote ∉ escapeTXTRecordValue value) ∧
    escapeTXTRecordValue "\"heritage=abc\"".toList = "heritage=abc".toList ∧
    escapeTXTRecordValue "tok\"en".toList = "token".toList := by
  refine ⟨fun value => ⟨escapeTXTRecordValue_eq_filter value, ?_⟩, by rfl, by rfl⟩
  rw [escapeTXTRecordValue_eq_filter]
  intro hmem
  have := (List.mem_filter.1 hmem).2
  simp at this

/-- C8, amended (unescape). For every stored value, `unescapeTXTRecordValue` first removes
every leading and every trailing double quote and then trims the surrounding white space of
what is left: the value is `ql ++ (sl ++ result ++ sr) ++ qr`, where `ql` and `qr` hold
double quotes only, `sl` and `sr` white space only, the part between the quotes neither
starts nor ends with a double quote and the result neither starts nor ends with white
space. On the example, `token` wrapped in one pair of double quotes gives `token`. -/
theorem unescapeTXTRecordValue_spec :
    (∀ value : List Char, ∃ ql qr sl sr : List Char,
      value = ql ++ (sl ++ unescapeTXTRecordValue value ++ sr) ++ qr ∧
      (∀ c ∈ ql, c = strings.dquote) ∧ (∀ c ∈ qr, c = strings.dquote) ∧
      (∀ c ∈ sl, unicode.IsSpace c = true) ∧ (∀ c ∈ sr, unicode.IsSpace c = true) ∧
      (sl ++ unescapeTXTRecordValue value ++ sr).head? ≠ some strings.dquote ∧
      (sl ++ unescapeTXTRecordValue value ++ sr).getLast? ≠ some strings.dquote ∧
      (∀ c, (unescapeTXTRecordValue value).head? = some c → unicode.IsSpace c = false) ∧
      (∀ c, (unescapeTXTRecordValue value).getLast? = some c → unicode.IsSpace c = false)) ∧
    unescapeTXTRecordValue "\"token\"".toList = "token".toList := by
  refine ⟨fun value => ?_, by rfl⟩
  obtain ⟨ql, qr, h1, h2, h3, h4, h5⟩ :=
    strings.trim_decomp (fun c => [strings.dquote].contains c) value
  obtain ⟨sl, sr, g1, g2, g3, g4, g5⟩ :=
    strings.trim_decomp unicode.IsSpace (strings.Trim value [strings.dquote])
  have hq : ∀ c : Char, [strings.dquote].contains c = true → c = strings.dquote := by
    intro c hc
    simpa using hc
  refine ⟨ql, qr, sl, sr, ?_, fun c hc => hq c (h2 c hc), fun c hc => hq c (h3 c hc),
    g2, g3, ?_, ?_, g4, g5⟩
  · have : sl ++ unescapeTXTRecordValue value ++ sr = strings.Trim value [strings.dquote] :=
      g1.symm
    rw [this]
    exact h1
  · have : sl ++ unescapeTXTRecordValue value ++ sr = strings.Trim value [strings.dquote] :=
      g1.symm
    rw [this]
    intro hc
    have := h4 _ hc
    simp at this
  · have : sl ++ unescapeTXTRecordValue value ++ sr = strings.Trim value [strings.dquote] :=
      g1.symm
    rw [this]
    intro hc
    have := h5 _ hc
    simp at this

/-- Counterexample to C8 as stated: on the quoted `token` with a space on either side the
code keeps the quotes (it looks for quotes before it trims the spaces), where trimming
first and unquoting after gives `token`; on `token` in two pairs of quotes the code removes
both pairs, not one layer. -/
theorem unescapeTXTRecordValue_counterexample :
    unescapeTXTRecordValue " \"token\" ".toList = "\"token\"".toList ∧
    unescapeTXTRecordValue_asSpecified " \"token\" ".toList = "token".toList ∧
    unescapeTXTRecordValue "\"\"token\"\"".toList = "token".toList ∧
    unescapeTXTRecordValue_asSpecified "\"\"token\"\"".toList = "\"token\"".toList ∧
    unescapeTXTRecordValue " \"token\" ".toList
      ≠ unescapeTXTRecordValue_asSpecified " \"token\" ".toList :=
  ⟨by rfl, by rfl, by rfl, by rfl, by decide⟩

/-! ## CleanUp -/

/-- The record the loop of `CleanUp` selects is listed and passes the test. -/
theorem CleanUp_loop_some (host key : List Char) (rs : List Record) (r : Record)
    (h : CleanUp.loop host key rs = some r) : r ∈ rs ∧ CleanUp.isMatch host key r = true := by
  induction rs with
  | nil => simp [CleanUp.loop] at h
  | cons a rs ih =>
    by_cases ha : CleanUp.isMatch host key a = true
    · simp only [CleanUp.loop, ha, if_true] at h
      have : a = r := Option.some.inj h
      subst this
      exact ⟨List.mem_cons_self _ _, ha⟩
    · simp only [CleanUp.loop, ha] at h
      obtain ⟨h1, h2⟩ := ih h
      exact ⟨List.mem_cons_of_mem _ h1, h2⟩

/-- When the loop of `CleanUp` falls through, no listed record passes the test. -/
theorem CleanUp_loop_none (host key : List Char) (rs : List Record)
    (h : CleanUp.loop host key rs = none) : ∀ r ∈ rs, CleanUp.isMatch host key r = false := by
  induction rs with
  | nil => simp
  | cons a rs ih =>
    by_cases ha : CleanUp.isMatch host key a = true
    · simp [CleanUp.loop, ha] at h
    · simp only [CleanUp.loop, ha] at h
      intro r hr
      rcases List.mem_cons.1 hr with rfl | hr
      · simpa using ha
      · exact ih h r hr

/-- The test of the loop of `CleanUp`, as a statement. -/
theorem CleanUp_isMatch_iff (host key : List Char) (r : Record) :
    CleanUp.isMatch host key r = true ↔
      StringValue r.Type_ = "TXT".toList ∧ StringValue r.Host = host ∧
        (StringValue r.Value = escapeTXTRecordValue key ∨
          unescapeTXTRecordValue (StringValue r.Value) = key) := by
  unfold CleanUp.isMatch
  by_cases h : StringValue r.Type_ = "TXT".toList ∧ StringValue r.Host = host
  · simp [h]
  · simp only [h, if_false]
    constructor
    · intro hf
      cases hf
    · intro hf
      exact absurd ⟨hf.1, hf.2.1⟩ h

/-- C9, amended (CleanUp value matching). For every key and every listed record that passes
the type/host filter, the loop of `CleanUp` stops at that record (and deletes it) if and
only if its stored value equals `escapeTXTRecordValue key` literally, or
`unescapeTXTRecordValue` of the stored value equals the key itself: the first comparison
is against the escaped key, the second against the raw key. -/
theorem CleanUp_value_matching (host key : List Char) (r : Record) (rest : List Record)
    (htype : StringValue r.Type_ = "TXT".toList) (hhost : StringValue r.Host = host) :
    CleanUp.loop host key (r :: rest) = some r ↔
      (StringValue r.Value = escapeTXTRecordValue key ∨
        unescapeTXTRecordValue (StringValue r.Value) = key) := by
  constructor
  · intro h
    exact ((CleanUp_isMatch_iff host key r).1 (CleanUp_loop_some host key _ r h).2).2.2
  · intro h
    have hm : CleanUp.isMatch host key r = true :=
      (CleanUp_isMatch_iff host key r).2 ⟨htype, hhost, h⟩
    simp [CleanUp.loop, hm]

/-- Counterexample to C9 as stated: for the key `"tok"` (with its quotes) and a TXT record
at the host whose stored value is `"tok"` too, the unescaped stored value equals the
escaped key, yet the loop does not select the record and `CleanUp` issues no delete. -/
theorem CleanUp_value_matching_counterexample :
    CleanUp.loop "_acme-challenge".toList "\"tok\"".toList [acmeRecord "1" "\"tok\""] = none ∧
    unescapeTXTRecordValue (StringValue (acmeRecord "1" "\"tok\"").Value)
      = escapeTXTRecordValue "\"tok\"".toList ∧
    CleanUp (Provider.client ⟨acmeZones, [acmeRecord "1" "\"tok\""], fun _ _ _ => true⟩)
        unpinned (acmeChallenge "\"tok\"")
      = ([Call.ListZones, Call.GetRecords 1 "_acme-challenge".toList], none) :=
  ⟨by rfl, by rfl, by rfl⟩

/-- Witness of C9, amended: for the key `tok` a stored value `"tok"` (re-quoted by the
provider) is selected, through the second comparison. -/
theorem CleanUp_value_matching_witness :
    CleanUp.loop "_acme-challenge".toList "tok".toList [acmeRecord "1" "\"tok\""]
      = some (acmeRecord "1" "\"tok\"") :=
  (CleanUp_value_matching "_acme-challenge".toList "tok".toList (acmeRecord "1" "\"tok\"")
    [] (by rfl) (by rfl)).2 (Or.inr (by rfl))

/-- Zone resolution makes no call or the one zone listing call. -/
theorem getZoneID_calls {ε : Type} (client : dnsAPI ε) (cfg : Config) (fqdn : List Char) :
    (getZoneID client cfg fqdn).1 = [] ∨ (getZoneID client cfg fqdn).1 = [Call.ListZones] := by
  unfold getZoneID
  by_cases hz : cfg.ZoneID ≠ []
  · rw [if_pos hz]
    cases strconv.ParseInt cfg.ZoneID with
    | none => exact Or.inl (by rfl)
    | some zid =>
      cases client.ListZones with
      | error e => exact Or.inr (by rfl)
      | ok zones =>
        simp only
        cases getZoneID.loop zid zones <;> exact Or.inr (by rfl)
  · rw [if_neg hz]
    unfold findZoneID
    cases client.ListZones with
    | error e => exact Or.inr (by rfl)
    | ok zones =>
      simp only
      cases (findZoneID.loop (strings.TrimSuffix fqdn [strings.dot]) zones).1 <;>
        exact Or.inr (by rfl)

/-- Zone resolution depends on the client through the zone listing only. -/
theorem getZoneID_congr {ε : Type} (c1 c2 : dnsAPI ε) (cfg : Config) (fqdn : List Char)
    (h : c1.ListZones = c2.ListZones) : getZoneID c1 cfg fqdn = getZoneID c2 cfg fqdn := by
  simp only [getZoneID, findZoneID, h]

/-- Delete calls of a concatenation. -/
theorem deleteCalls_append (a b : List Call) :
    deleteCalls (a ++ b) = deleteCalls a + deleteCalls b := by
  induction a with
  | nil => simp [deleteCalls]
  | cons c cs ih =>
    cases c <;> simp [deleteCalls, ih]
    omega

/-- Provider state after a concatenation of calls. -/
theorem afterCalls_append (p : Provider) (a b : List Call) :
    p.afterCalls (a ++ b) = (p.afterCalls a).afterCalls b := by
  induction a generalizing p with
  | nil => rfl
  | cons c cs ih =>
    cases c <;> simp [Provider.afterCalls, ih]

/-- The calls of zone resolution hold no delete and leave the provider state as it is. -/
theorem getZoneID_calls_quiet {ε : Type} (client : dnsAPI ε) (cfg : Config)
    (fqdn : List Char) (p : Provider) :
    deleteCalls (getZoneID client cfg fqdn).1 = 0 ∧
      p.afterCalls (getZoneID client cfg fqdn).1 = p := by
  rcases getZoneID_calls client cfg fqdn with h | h <;> rw [h] <;> exact ⟨rfl, rfl⟩

/-- `CleanUp` once zone resolution and the record listing have succeeded. -/
theorem CleanUp_of_zone {ε : Type} (client : dnsAPI ε) (cfg : Config) (ch : ChallengeRequest)
    (z : ZoneInfo) (records : List Record)
    (hz : (getZoneID client cfg ch.ResolvedFQDN).2 = .ok z)
    (hr : client.GetRecords z.ID (extractHost ch.ResolvedFQDN z.Name) = .ok records) :
    CleanUp client cfg ch =
      match CleanUp.loop (extractHost ch.ResolvedFQDN z.Name) ch.Key records with
      | some r =>
        ((getZoneID client cfg ch.ResolvedFQDN).1 ++
            [Call.GetRecords z.ID (extractHost ch.ResolvedFQDN z.Name),
              Call.DeleteRecord z.ID (StringValue r.RecordID)],
          client.DeleteRecord z.ID (StringValue r.RecordID))
      | none =>
        ((getZoneID client cfg ch.ResolvedFQDN).1 ++
            [Call.GetRecords z.ID (extractHost ch.ResolvedFQDN z.Name)], none) := by
  rcases hg : getZoneID client cfg ch.ResolvedFQDN with ⟨c1, res⟩
  rw [hg] at hz
  simp only at hz
  subst hz
  simp only [CleanUp, hg, hr]

/-- `CleanUp` when zone resolution fails. -/
theorem CleanUp_of_zone_error {ε : Type} (client : dnsAPI ε) (cfg : Config)
    (ch : ChallengeRequest) (err : Error ε)
    (hz : (getZoneID client cfg ch.ResolvedFQDN).2 = .error err) :
    CleanUp client cfg ch = ((getZoneID client cfg ch.ResolvedFQDN).1, some err) := by
  rcases hg : getZoneID client cfg ch.ResolvedFQDN with ⟨c1, res⟩
  rw [hg] at hz
  simp only at hz
  subst hz
  simp only [CleanUp, hg]

/-- Two different members that pass a filter leave at least two entries. -/
theorem two_mem_filter_length (q : Record → Bool) (l : List Record) (a b : Record)
    (ha : a ∈ l) (hb : b ∈ l) (hqa : q a = true) (hqb : q b = true) (hne : a ≠ b) :
    2 ≤ (l.filter q).length := by
  have ha2 : a ∈ l.filter q := List.mem_filter.2 ⟨ha, hqa⟩
  have hb2 : b ∈ l.filter q := List.mem_filter.2 ⟨hb, hqb⟩
  match hl : l.filter q with
  | [] => rw [hl] at ha2; simp at ha2
  | [x] =>
    rw [hl] at ha2 hb2
    simp at ha2 hb2
    exact absurd (ha2.trans hb2.symm) hne
  | _ :: _ :: _ => simp

/-- C10, amended (CleanUp idempotence). The provider is a list of records in which a
successful delete removes the record with the given id. For every record list, zone
listing and challenge on which zone resolution succeeds, when `CleanUp` is called twice in
succession for the same challenge, both calls return success and each issues at most one
delete call; and if at most one record of the list passes the type/host/value test of
`CleanUp`, the two calls together issue at most one delete call. (The ids may even
repeat.) -/
theorem CleanUp_twice (p : Provider) (cfg : Config) (ch : ChallengeRequest) (z : ZoneInfo)
    (hzone : (getZoneID p.client cfg ch.ResolvedFQDN).2 = .ok z) :
    (CleanUpTwice p cfg ch).1.2 = none ∧ (CleanUpTwice p cfg ch).2.2 = none ∧
    deleteCalls (CleanUpTwice p cfg ch).1.1 ≤ 1 ∧ deleteCalls (CleanUpTwice p cfg ch).2.1 ≤ 1 ∧
    ((p.records.filter (CleanUp.isMatch (extractHost ch.ResolvedFQDN z.Name) ch.Key)).length ≤ 1 →
      deleteCalls ((CleanUpTwice p cfg ch).1.1 ++ (CleanUpTwice p cfg ch).2.1) ≤ 1) := by
  -- one call against any state with the same zone listing
  have hone : ∀ q : Provider, q.zones = p.zones →
      ∃ found : Option Record,
        CleanUp.loop (extractHost ch.ResolvedFQDN z.Name) ch.Key
          (q.records.filter (q.listed z.ID (extractHost ch.ResolvedFQDN z.Name))) = found ∧
        (CleanUp q.client cfg ch).2 = none ∧
        deleteCalls (CleanUp q.client cfg ch).1 = (if found.isSome then 1 else 0) ∧
        q.afterCalls (CleanUp q.client cfg ch).1
          = (match found with
            | some r => q.delete (StringValue r.RecordID)
            | none => q) := by
    intro q hq
    have hcl : q.client.ListZones = p.client.ListZones := by
      simp [Provider.client, hq]
    have hzq : (getZoneID q.client cfg ch.ResolvedFQDN).2 = .ok z := by
      rw [getZoneID_congr q.client p.client cfg _ hcl]
      exact hzone
    have hquiet := getZoneID_calls_quiet q.client cfg ch.ResolvedFQDN
    have hC := CleanUp_of_zone q.client cfg ch z
      (q.records.filter (q.listed z.ID (extractHost ch.ResolvedFQDN z.Name))) hzq rfl
    refine ⟨_, rfl, ?_⟩
    cases hf : CleanUp.loop (extractHost ch.ResolvedFQDN z.Name) ch.Key
        (q.records.filter (q.listed z.ID (extractHost ch.ResolvedFQDN z.Name))) with
    | none =>
      rw [hf] at hC
      simp only at hC
      rw [hC]
      refine ⟨rfl, ?_, ?_⟩
      · rw [deleteCalls_append, (hquiet q).1]
        rfl
      · rw [afterCalls_append, (hquiet q).2]
        rfl
    | some r =>
      rw [hf] at hC
      simp only at hC
      rw [hC]
      have hr := (CleanUp_loop_some _ _ _ r hf).1
      have hrq : r ∈ q.records := (List.mem_filter.1 hr).1
      refine ⟨?_, ?_, ?_⟩
      · show q.client.DeleteRecord z.ID (StringValue r.RecordID) = none
        have : q.records.any (fun r' => StringValue r'.RecordID == StringValue r.RecordID)
            = true := List.any_eq_true.2 ⟨r, hrq, by simp⟩
        simp only [Provider.client, this, if_true]
      · rw [deleteCalls_append, (hquiet q).1]
        rfl
      · rw [afterCalls_append, (hquiet q).2]
        rfl
  obtain ⟨f1, hf1, hres1, hdel1, hst1⟩ := hone p rfl
  have hz2 : (p.afterCalls (CleanUp p.client cfg ch).1).zones = p.zones := by
    rw [hst1]
    cases f1 <;> rfl
  obtain ⟨f2, hf2, hres2, hdel2, hst2⟩ := hone (p.afterCalls (CleanUp p.client cfg ch).1) hz2
  have e1 : (CleanUpTwice p cfg ch).1 = CleanUp p.client cfg ch := rfl
  have e2 : (CleanUpTwice p cfg ch).2
      = CleanUp (p.afterCalls (CleanUp p.client cfg ch).1).client cfg ch := rfl
  rw [e1, e2]
  refine ⟨hres1, hres2, ?_, ?_, ?_⟩
  · rw [hdel1]; split <;> omega
  · rw [hdel2]; split <;> omega
  · intro hone_match
    rw [deleteCalls_append, hdel1, hdel2]
    cases f1 with
    | none =>
      -- nothing deleted: the second call sees the same state
      rw [hst1] at hf2
      simp only at hf2
      rw [hf1] at hf2
      subst hf2
      simp
    | some r =>
      cases f2 with
      | none => simp
      | some r' =>
        exfalso
        obtain ⟨hr, hrm⟩ := CleanUp_loop_some _ _ _ r hf1
        obtain ⟨hr', hrm'⟩ := CleanUp_loop_some _ _ _ r' hf2
        have hrp : r ∈ p.records := (List.mem_filter.1 hr).1
        rw [hst1] at hr'
        simp only [Provider.delete] at hr'
        have hr'2 := (List.mem_filter.1 hr').1
        have hr'p : r' ∈ p.records := (List.mem_filter.1 hr'2).1
        have hneid : StringValue r'.RecordID ≠ StringValue r.RecordID := by
          simpa using (List.mem_filter.1 hr'2).2
        have hne : r ≠ r' := by
          intro e
          subst e
          exact hneid rfl
        have := two_mem_filter_length _ _ r r' hrp hr'p hrm hrm' hne
        omega

/-- Counterexample to C10 as stated: with two TXT records at the host that both hold the key
(ids `1` and `2`, distinct), the first `CleanUp` deletes record `1` and the second deletes
record `2`, two delete calls in all; and with an empty zone listing the second call returns
the no-matching-zone error. -/
theorem CleanUp_twice_counterexample :
    ([acmeRecord "1" "tok", acmeRecord "2" "tok"].map (fun r => StringValue r.RecordID)).Nodup ∧
    CleanUpTwice ⟨acmeZones, [acmeRecord "1" "tok", acmeRecord "2" "tok"], fun _ _ _ => true⟩
        unpinned (acmeChallenge "tok")
      = (([Call.ListZones, Call.GetRecords 1 "_acme-challenge".toList,
            Call.DeleteRecord 1 "1".toList], none),
         ([Call.ListZones, Call.GetRecords 1 "_acme-challenge".toList,
            Call.DeleteRecord 1 "2".toList], none)) ∧
    deleteCalls
      ((CleanUpTwice ⟨acmeZones, [acmeRecord "1" "tok", acmeRecord "2" "tok"],
          fun _ _ _ => true⟩ unpinned (acmeChallenge "tok")).1.1 ++
        (CleanUpTwice ⟨acmeZones, [acmeRecord "1" "tok", acmeRecord "2" "tok"],
          fun _ _ _ => true⟩ unpinned (acmeChallenge "tok")).2.1) = 2 ∧
    (CleanUpTwice ⟨[], [acmeRecord "1" "tok"], fun _ _ _ => true⟩ unpinned
        (acmeChallenge "tok")).2.2
      = some (Error.noMatchingZone "_acme-challenge.example.com".toList) :=
  ⟨by decide, by rfl, by rfl, by rfl⟩

/-- Witness of C10, amended: one record holds the key; the first call deletes it, the second
finds nothing to delete, and both return success. -/
theorem CleanUp_twice_witness :
    CleanUpTwice ⟨acmeZones, [acmeRecord "0" "other", acmeRecord "1" "tok"], fun _ _ _ => true⟩
        unpinned (acmeChallenge "tok")
      = (([Call.ListZones, Call.GetRecords 1 "_acme-challenge".toList,
            Call.DeleteRecord 1 "1".toList], none),
         ([Call.ListZones, Call.GetRecords 1 "_acme-challenge".toList], none)) ∧
    deleteCalls
      ((CleanUpTwice ⟨acmeZones, [acmeRecord "0" "other", acmeRecord "1" "tok"],
          fun _ _ _ => true⟩ unpinned (acmeChallenge "tok")).1.1 ++
        (CleanUpTwice ⟨acmeZones, [acmeRecord "0" "other", acmeRecord "1" "tok"],
          fun _ _ _ => true⟩ unpinned (acmeChallenge "tok")).2.1) ≤ 1 :=
  ⟨by rfl,
    (CleanUp_twice ⟨acmeZones, [acmeRecord "0" "other", acmeRecord "1" "tok"],
        fun _ _ _ => true⟩ unpinned (acmeChallenge "tok") ⟨1, "example.com".toList⟩
      (by rfl)).2.2.2.2 (by decide)⟩

end volcengine

/-! ## Lemmas for tokens -/

namespace strings

theorem dropWhile_of_all_false (p : Char → Bool) (l : List Char)
    (h : ∀ c ∈ l, p c = false) : l.dropWhile p = l := by
  cases l with
  | nil => rfl
  | cons a l =>
    have ha := h a (List.mem_cons_self _ _)
    simp [List.dropWhile_cons, ha]

theorem rdropWhile_of_all_false (p : Char → Bool) (l : List Char)
    (h : ∀ c ∈ l, p c = false) : l.rdropWhile p = l := by
  induction l using List.reverseRecOn with
  | nil => simp
  | append_singleton l a _ =>
    have ha := h a (by simp)
    rw [List.rdropWhile_concat_neg _ _ _ (by simp [ha])]

theorem trimSpace_of_no_space (s : List Char) (h : ∀ c ∈ s, unicode.IsSpace c = false) :
    TrimSpace s = s := by
  unfold TrimSpace
  rw [dropWhile_of_all_false _ _ h, rdropWhile_of_all_false _ _ h]

theorem trim_quoted (s : List Char) (h : ∀ c ∈ s, c ≠ dquote) :
    Trim (dquote :: (s ++ [dquote])) [dquote] = s := by
  have hp : ∀ c ∈ s, (fun c => [dquote].contains c) c = false := by
    intro c hc
    simpa using h c hc
  cases s with
  | nil => rfl
  | cons a s =>
    have ha := hp a (List.mem_cons_self _ _)
    have h1 : (dquote :: (a :: s ++ [dquote])).dropWhile (fun c => [dquote].contains c)
        = a :: s ++ [dquote] := by
      rw [List.dropWhile_cons, if_pos (by simp)]
      simp only [List.cons_append, List.dropWhile_cons]
      rw [if_neg (by simpa using ha)]
    unfold Trim
    rw [h1, List.rdropWhile_concat_pos _ _ _ (by simp), rdropWhile_of_all_false _ _ hp]

end strings

namespace volcengine

/-! ## CleanUp selection, Present, pinned zone ids -/

/-- A successful zone resolution has made exactly the zone listing call. -/
theorem getZoneID_ok_calls {ε : Type} (client : dnsAPI ε) (cfg : Config) (fqdn : List Char)
    (z : ZoneInfo) (hz : (getZoneID client cfg fqdn).2 = .ok z) :
    (getZoneID client cfg fqdn).1 = [Call.ListZones] := by
  rcases getZoneID_calls client cfg fqdn with h | h
  · exfalso
    unfold getZoneID at h hz
    by_cases hne : cfg.ZoneID ≠ []
    · rw [if_pos hne] at h hz
      cases hp : strconv.ParseInt cfg.ZoneID with
      | none =>
        rw [hp] at hz
        cases hz
      | some zid =>
        rw [hp] at h
        cases hl : client.ListZones with
        | error e =>
          rw [hl] at h
          cases h
        | ok zones =>
          rw [hl] at h
          simp only at h
          cases hg : getZoneID.loop zid zones <;> rw [hg] at h <;> cases h
    · rw [if_neg hne] at h
      unfold findZoneID at h
      cases hl : client.ListZones with
      | error e =>
        rw [hl] at h
        cases h
      | ok zones =>
        rw [hl] at h
        simp only at h
        cases hg : (findZoneID.loop (strings.TrimSuffix fqdn [strings.dot]) zones).1 <;>
          rw [hg] at h <;> cases h
  · exact h

/-- The loop of `CleanUp` stops at the first record that passes the test. -/
theorem CleanUp_loop_first (host key : List Char) (pre post : List Record) (r : Record)
    (hpre : ∀ r' ∈ pre, CleanUp.isMatch host key r' = false)
    (hr : CleanUp.isMatch host key r = true) :
    CleanUp.loop host key (pre ++ r :: post) = some r := by
  induction pre with
  | nil => simp [CleanUp.loop, hr]
  | cons a pre ih =>
    have ha : CleanUp.isMatch host key a = false := hpre a (List.mem_cons_self _ _)
    simp only [List.cons_append, CleanUp.loop, ha]
    exact ih (fun r' hr' => hpre r' (List.mem_cons_of_mem _ hr'))

/-- The loop of `CleanUp` falls through when no record passes the test. -/
theorem CleanUp_loop_none_of (host key : List Char) (rs : List Record)
    (h : ∀ r ∈ rs, CleanUp.isMatch host key r = false) : CleanUp.loop host key rs = none := by
  induction rs with
  | nil => rfl
  | cons a rs ih =>
    have ha : CleanUp.isMatch host key a = false := h a (List.mem_cons_self _ _)
    simp only [CleanUp.loop, ha]
    exact ih (fun r hr => h r (List.mem_cons_of_mem _ hr))

/-- A record that fails the type, host or value condition fails the test of `CleanUp`. -/
theorem isMatch_false_of_not (host key : List Char) (r : Record)
    (h : ¬ (StringValue r.Type_ = "TXT".toList ∧ StringValue r.Host = host ∧
        (StringValue r.Value = escapeTXTRecordValue key ∨
          unescapeTXTRecordValue (StringValue r.Value) = key))) :
    CleanUp.isMatch host key r = false := by
  cases hm : CleanUp.isMatch host key r
  · rfl
  · exact absurd ((CleanUp_isMatch_iff host key r).1 hm) h

/-- C11 (CleanUp client-side filter and selection). After a successful zone resolution, for
every record list the provider returns for the extracted host (filtered by host or not),
`CleanUp` issues at most one delete call. When a record has type exactly `TXT`, host
exactly the extracted host and a value that passes the value test (it equals the escaped
key, or its unescaped form equals the key), and no record before it in the list does,
`CleanUp` deletes that record by its id and returns the result of the delete call. When no
record of the list satisfies all three, `CleanUp` issues no delete call and returns
success. -/
theorem CleanUp_filter_and_selection {ε : Type} (client : dnsAPI ε) (cfg : Config)
    (ch : ChallengeRequest) (z : ZoneInfo) (records : List Record)
    (hz : (getZoneID client cfg ch.ResolvedFQDN).2 = .ok z)
    (hr : client.GetRecords z.ID (extractHost ch.ResolvedFQDN z.Name) = .ok records) :
    deleteCalls (CleanUp client cfg ch).1 ≤ 1 ∧
    (∀ (pre post : List Record) (r : Record), records = pre ++ r :: post →
      (∀ r' ∈ pre, ¬ (StringValue r'.Type_ = "TXT".toList ∧
        StringValue r'.Host = extractHost ch.ResolvedFQDN z.Name ∧
        (StringValue r'.Value = escapeTXTRecordValue ch.Key ∨
          unescapeTXTRecordValue (StringValue r'.Value) = ch.Key))) →
      (StringValue r.Type_ = "TXT".toList ∧
        StringValue r.Host = extractHost ch.ResolvedFQDN z.Name ∧
        (StringValue r.Value = escapeTXTRecordValue ch.Key ∨
          unescapeTXTRecordValue (StringValue r.Value) = ch.Key)) →
      CleanUp client cfg ch
        = ([Call.ListZones, Call.GetRecords z.ID (extractHost ch.ResolvedFQDN z.Name),
            Call.DeleteRecord z.ID (StringValue r.RecordID)],
          client.DeleteRecord z.ID (StringValue r.RecordID))) ∧
    ((∀ r ∈ records, ¬ (StringValue r.Type_ = "TXT".toList ∧
        StringValue r.Host = extractHost ch.ResolvedFQDN z.Name ∧
        (StringValue r.Value = escapeTXTRecordValue ch.Key ∨
          unescapeTXTRecordValue (StringValue r.Value) = ch.Key))) →
      CleanUp client cfg ch
        = ([Call.ListZones, Call.GetRecords z.ID (extractHost ch.ResolvedFQDN z.Name)],
          none)) := by
  have hC := CleanUp_of_zone client cfg ch z records hz hr
  have hcalls := getZoneID_ok_calls client cfg ch.ResolvedFQDN z hz
  rw [hcalls] at hC
  refine ⟨?_, ?_, ?_⟩
  · rw [hC]
    cases CleanUp.loop (extractHost ch.ResolvedFQDN z.Name) ch.Key records with
    | none => simp [deleteCalls]
    | some r => simp [deleteCalls]
  · intro pre post r hrec hpre hmatch
    have hl : CleanUp.loop (extractHost ch.ResolvedFQDN z.Name) ch.Key records = some r := by
      rw [hrec]
      exact CleanUp_loop_first _ _ pre post r
        (fun r' hr' => isMatch_false_of_not _ _ r' (hpre r' hr'))
        ((CleanUp_isMatch_iff _ _ r).2 hmatch)
    rw [hC, hl]
    rfl
  · intro hnone
    have hl : CleanUp.loop (extractHost ch.ResolvedFQDN z.Name) ch.Key records = none :=
      CleanUp_loop_none_of _ _ records (fun r hr => isMatch_false_of_not _ _ r (hnone r hr))
    rw [hC, hl]
    rfl

/-- C12 (end-to-end Present). When zone resolution succeeds with zone `z`, `Present` issues
exactly one create-record call, with zone id `z.ID`, host `extractHost fqdn z.Name`, type
`TXT`, value `escapeTXTRecordValue key` and TTL `300`, after the zone listing call, and
returns the result of that create call. -/
theorem Present_creates_one_record {ε : Type} (client : dnsAPI ε) (cfg : Config)
    (ch : ChallengeRequest) (z : ZoneInfo)
    (hz : (getZoneID client cfg ch.ResolvedFQDN).2 = .ok z) :
    Present client cfg ch
      = ([Call.ListZones,
          Call.CreateRecord z.ID (extractHost ch.ResolvedFQDN z.Name) "TXT".toList
            (escapeTXTRecordValue ch.Key) 300],
        client.CreateRecord z.ID (extractHost ch.ResolvedFQDN z.Name) "TXT".toList
          (escapeTXTRecordValue ch.Key) 300) ∧
    createCalls (Present client cfg ch).1 = 1 := by
  have hcalls := getZoneID_ok_calls client cfg ch.ResolvedFQDN z hz
  have hP : Present client cfg ch
      = ([Call.ListZones,
          Call.CreateRecord z.ID (extractHost ch.ResolvedFQDN z.Name) "TXT".toList
            (escapeTXTRecordValue ch.Key) 300],
        client.CreateRecord z.ID (extractHost ch.ResolvedFQDN z.Name) "TXT".toList
          (escapeTXTRecordValue ch.Key) 300) := by
    rcases hg : getZoneID client cfg ch.ResolvedFQDN with ⟨c1, res⟩
    rw [hg] at hz hcalls
    simp only at hz hcalls
    subst hz
    subst hcalls
    simp only [Present, hg]
    rfl
  refine ⟨hP, ?_⟩
  rw [hP]
  rfl

/-- Witness of C12: fqdn `_acme-challenge.foo.example.com`, a listing with the zone
`example.com`, key `tok123`: one create call with host `_acme-challenge.foo`, type `TXT`,
value `tok123`, TTL `300`. -/
theorem Present_creates_one_record_witness :
    Present (Provider.client ⟨acmeZones, [], fun _ _ _ => true⟩) unpinned
        ⟨"_acme-challenge.foo.example.com".toList, "tok123".toList⟩
      = ([Call.ListZones,
          Call.CreateRecord 1 "_acme-challenge.foo".toList "TXT".toList "tok123".toList 300],
        none) :=
  (Present_creates_one_record (Provider.client ⟨acmeZones, [], fun _ _ _ => true⟩) unpinned
    ⟨"_acme-challenge.foo.example.com".toList, "tok123".toList⟩ ⟨1, "example.com".toList⟩
    (by rfl)).1

/-- C13 (pinned zone, unparsable id). When the configured zoneID is not empty and
`strconv.ParseInt` rejects it, `getZoneID` returns the invalid-zoneID error and has made
no call on the client: the zone listing is not asked for; `Present` and `CleanUp` stop
there, with the same error and no call. -/
theorem getZoneID_unparsable_zoneID {ε : Type} (client : dnsAPI ε) (cfg : Config)
    (ch : ChallengeRequest)
    (hne : cfg.ZoneID ≠ []) (hparse : strconv.ParseInt cfg.ZoneID = none) :
    getZoneID client cfg ch.ResolvedFQDN = ([], .error (Error.invalidZoneIDFormat cfg.ZoneID)) ∧
    Present client cfg ch = ([], some (Error.invalidZoneIDFormat cfg.ZoneID)) ∧
    CleanUp client cfg ch = ([], some (Error.invalidZoneIDFormat cfg.ZoneID)) := by
  have hg : getZoneID client cfg ch.ResolvedFQDN
      = ([], .error (Error.invalidZoneIDFormat cfg.ZoneID)) := by
    unfold getZoneID
    rw [if_pos hne, hparse]
  refine ⟨hg, ?_, ?_⟩
  · simp only [Present, hg]
  · simp only [CleanUp, hg]

/-- Witness of C13: the zoneID `abc`. -/
theorem getZoneID_unparsable_zoneID_witness :
    getZoneID (Provider.client ⟨acmeZones, [], fun _ _ _ => true⟩) ⟨[], "abc".toList, []⟩
        "_acme-challenge.example.com.".toList
      = ([], .error (Error.invalidZoneIDFormat "abc".toList)) :=
  (getZoneID_unparsable_zoneID (Provider.client ⟨acmeZones, [], fun _ _ _ => true⟩)
    ⟨[], "abc".toList, []⟩ (acmeChallenge "tok") (by decide) (by rfl)).1

/-! ## Tokens and value coherence -/

/-- A base64url character is not white space. -/
theorem isBase64URL_not_space (c : Char) (h : isBase64URL c = true) :
    unicode.IsSpace c = false := by
  unfold isBase64URL at h
  unfold unicode.IsSpace
  simp only [Bool.or_eq_true, Bool.and_eq_true, decide_eq_true_eq, beq_iff_eq] at h
  have hle : c.toNat ≤ 0xFF := by omega
  simp only [hle, if_true]
  simp only [Bool.or_eq_false_iff, beq_eq_false_iff_ne, ne_eq]
  omega

/-- A base64url character is not the double quote. -/
theorem isBase64URL_ne_dquote (c : Char) (h : isBase64URL c = true) : c ≠ strings.dquote := by
  intro e
  subst e
  revert h
  decide

/-- On a string of base64url characters the trimming and the quote removal of
`escapeTXTRecordValue` find nothing to remove. -/
theorem escape_id_of_base64url (s : List Char)
    (h : ∀ c ∈ s, isBase64URL c = true) : escapeTXTRecordValue s = s := by
  rw [escapeTXTRecordValue_eq_filter,
    strings.trimSpace_of_no_space s (fun c hc => isBase64URL_not_space c (h c hc))]
  apply List.filter_eq_self.2
  intro c hc
  simpa using isBase64URL_ne_dquote c (h c hc)

/-- C14 (escape is a no-op on ACME tokens). For every string made only of base64url
characters (`A-Z`, `a-z`, `0-9`, `-`, `_`), `escapeTXTRecordValue` returns the string
unchanged: it has no white space to trim, it does not start with the quoted `heritage=`
marker, and it holds no double quote to delete. -/
theorem escapeTXTRecordValue_base64url (s : List Char)
    (h : ∀ c ∈ s, isBase64URL c = true) : escapeTXTRecordValue s = s := by
  have hspace : strings.TrimSpace s = s :=
    strings.trimSpace_of_no_space s (fun c hc => isBase64URL_not_space c (h c hc))
  have hquote : s.filter (fun c => c != strings.dquote) = s := by
    apply List.filter_eq_self.2
    intro c hc
    simpa using isBase64URL_ne_dquote c (h c hc)
  rw [escapeTXTRecordValue_eq_filter, hspace, hquote]

/-- Witness of C14: the token `Tok-123_abc`. -/
theorem escapeTXTRecordValue_base64url_witness :
    escapeTXTRecordValue "Tok-123_abc".toList = "Tok-123_abc".toList :=
  escapeTXTRecordValue_base64url "Tok-123_abc".toList (by decide)

/-- Unescaping a base64url string wrapped in one pair of double quotes gives it back. -/
theorem unescape_quoted_base64url (s : List Char) (h : ∀ c ∈ s, isBase64URL c = true) :
    unescapeTXTRecordValue (strings.dquote :: (s ++ [strings.dquote])) = s := by
  unfold unescapeTXTRecordValue
  rw [strings.trim_quoted s (fun c hc => isBase64URL_ne_dquote c (h c hc)),
    strings.trimSpace_of_no_space s (fun c hc => isBase64URL_not_space c (h c hc))]

/-- C19 (Present/CleanUp value coherence). For every key, a TXT record at the host whose
stored value is exactly the value `Present` writes, `escapeTXTRecordValue key`, is selected
by the loop of `CleanUp`; and for every key made only of base64url characters, a record
whose stored value is that written value wrapped in one pair of double quotes is selected
as well. -/
theorem Present_CleanUp_value_coherence (host key : List Char) (recordID : Option (List Char))
    (rest : List Record) :
    CleanUp.loop host key
        (⟨recordID, some host, some "TXT".toList, some (escapeTXTRecordValue key)⟩ :: rest)
      = some ⟨recordID, some host, some "TXT".toList, some (escapeTXTRecordValue key)⟩ ∧
    ((∀ c ∈ key, isBase64URL c = true) →
      CleanUp.loop host key
          (⟨recordID, some host, some "TXT".toList,
            some (strings.dquote :: (escapeTXTRecordValue key ++ [strings.dquote]))⟩ :: rest)
        = some ⟨recordID, some host, some "TXT".toList,
            some (strings.dquote :: (escapeTXTRecordValue key ++ [strings.dquote]))⟩) := by
  constructor
  · have hm : CleanUp.isMatch host key
        ⟨recordID, some host, some "TXT".toList, some (escapeTXTRecordValue key)⟩ = true :=
      (CleanUp_isMatch_iff _ _ _).2 ⟨rfl, rfl, Or.inl rfl⟩
    simp only [CleanUp.loop, hm, if_true]
  · intro hkey
    have hm : CleanUp.isMatch host key
        ⟨recordID, some host, some "TXT".toList,
          some (strings.dquote :: (escapeTXTRecordValue key ++ [strings.dquote]))⟩ = true := by
      refine (CleanUp_isMatch_iff _ _ _).2 ⟨rfl, rfl, Or.inr ?_⟩
      show unescapeTXTRecordValue
        (strings.dquote :: (escapeTXTRecordValue key ++ [strings.dquote])) = key
      rw [escape_id_of_base64url key hkey]
      exact unescape_quoted_base64url key hkey
    simp only [CleanUp.loop, hm, if_true]

/-- Witness of C19: the key `tok123` and the stored value `"tok123"` with its quotes. -/
theorem Present_CleanUp_value_coherence_witness :
    CleanUp.loop "_acme-challenge".toList "tok123".toList [acmeRecord "9" "\"tok123\""]
      = some (acmeRecord "9" "\"tok123\"") :=
  (Present_CleanUp_value_coherence "_acme-challenge".toList "tok123".toList (some "9".toList)
    []).2 (by decide)

/-! ## Zone resolution: failure, pinned lookup, ties -/

/-- C16, amended (unpinned resolution fails exactly when nothing matches). For every zone
listing and fqdn, `findZoneID` succeeds whenever a listed zone matches the fqdn (fqdn equal
to the zone name or ending with `"." ++ zoneName`, one trailing dot stripped from both)
and its stripped name is not empty, and it returns the no-matching-zone error when no
listed zone is such a match. -/
theorem findZoneID_fails_iff_no_match {ε : Type} (client : dnsAPI ε) (zones : List Zone)
    (fqdn : List Char) (hlist : client.ListZones = .ok zones) :
    ((∃ z ∈ zones,
        (strings.TrimSuffix fqdn [strings.dot]
            = strings.TrimSuffix (StringValue z.ZoneName) [strings.dot] ∨
          (strings.dot :: strings.TrimSuffix (StringValue z.ZoneName) [strings.dot])
            <:+ strings.TrimSuffix fqdn [strings.dot]) ∧
        strings.TrimSuffix (StringValue z.ZoneName) [strings.dot] ≠ []) →
      ∃ info, findZoneID client fqdn = ([Call.ListZones], .ok info)) ∧
    ((¬ ∃ z ∈ zones,
        (strings.TrimSuffix fqdn [strings.dot]
            = strings.TrimSuffix (StringValue z.ZoneName) [strings.dot] ∨
          (strings.dot :: strings.TrimSuffix (StringValue z.ZoneName) [strings.dot])
            <:+ strings.TrimSuffix fqdn [strings.dot]) ∧
        strings.TrimSuffix (StringValue z.ZoneName) [strings.dot] ≠ []) →
      findZoneID client fqdn
        = ([Call.ListZones],
          .error (Error.noMatchingZone (strings.TrimSuffix fqdn [strings.dot])))) := by
  obtain ⟨h1, h2, h3⟩ := findZoneID_loop_inv (strings.TrimSuffix fqdn [strings.dot]) zones
  have hF : findZoneID client fqdn =
      match (findZoneID.loop (strings.TrimSuffix fqdn [strings.dot]) zones).1 with
      | none => ([Call.ListZones],
          .error (Error.noMatchingZone (strings.TrimSuffix fqdn [strings.dot])))
      | some z => ([Call.ListZones], .ok ⟨Int32Value z.ZID, StringValue z.ZoneName⟩) := by
    unfold findZoneID
    rw [hlist]
  constructor
  · rintro ⟨z, hz, hm, hne⟩
    have hlen := h1 z hz ((isMatch_iff _ z).2 hm)
    have hpos := strings.len_pos_of_ne_nil _ hne
    cases hl : (findZoneID.loop (strings.TrimSuffix fqdn [strings.dot]) zones).1 with
    | none =>
      have := h3 hl
      omega
    | some w =>
      rw [hF, hl]
      exact ⟨_, rfl⟩
  · intro hno
    cases hl : (findZoneID.loop (strings.TrimSuffix fqdn [strings.dot]) zones).1 with
    | none =>
      rw [hF, hl]
    | some w =>
      exfalso
      obtain ⟨hw, hwm, hwl, hwpos⟩ := h2 w hl
      apply hno
      refine ⟨w, hw, (isMatch_iff _ w).1 hwm, ?_⟩
      intro hnil
      rw [hnil, strings.len_nil] at hwl
      omega

/-- Counterexample to C16 as stated: the listed zone `"."` matches the fqdn
`example.com..` (the stripped fqdn `example.com.` ends with `"."` followed by the empty
stripped zone name), yet `findZoneID` returns the no-matching-zone error. -/
theorem findZoneID_fails_iff_no_match_counterexample :
    findZoneID.isMatch (strings.TrimSuffix "example.com..".toList [strings.dot])
        ⟨some 1, some ".".toList⟩ = true ∧
    findZoneID (Provider.client ⟨[⟨some 1, some ".".toList⟩], [], fun _ _ _ => true⟩)
        "example.com..".toList
      = ([Call.ListZones], .error (Error.noMatchingZone "example.com.".toList)) :=
  ⟨by rfl, by rfl⟩

/-- C15, amended (fallback unreachable after unpinned zone resolution). For a configuration
without a pinned zone id, if `getZoneID` succeeds with zone `Z`, then after one trailing dot
is stripped from both the fqdn equals `Z.Name` or ends with `"." ++ Z.Name`, so
`extractHost` does not take its fallback branch: the host is `"@"`, or a proper prefix `h`
of the stripped fqdn with `h ++ "." ++ Z.Name` equal to it. -/
theorem getZoneID_unpinned_no_fallback {ε : Type} (client : dnsAPI ε) (cfg : Config)
    (fqdn : List Char) (info : ZoneInfo)
    (hcfg : cfg.ZoneID = [])
    (hok : (getZoneID client cfg fqdn).2 = .ok info) :
    (strings.TrimSuffix fqdn [strings.dot] = strings.TrimSuffix info.Name [strings.dot] ∨
      (strings.dot :: strings.TrimSuffix info.Name [strings.dot])
        <:+ strings.TrimSuffix fqdn [strings.dot]) ∧
    (extractHost fqdn info.Name = "@".toList ∨
      extractHost fqdn info.Name ++ strings.dot :: strings.TrimSuffix info.Name [strings.dot]
        = strings.TrimSuffix fqdn [strings.dot]) := by
  have hmatch : strings.TrimSuffix fqdn [strings.dot]
        = strings.TrimSuffix info.Name [strings.dot] ∨
      (strings.dot :: strings.TrimSuffix info.Name [strings.dot])
        <:+ strings.TrimSuffix fqdn [strings.dot] := by
    unfold getZoneID at hok
    rw [if_neg (by simp [hcfg])] at hok
    unfold findZoneID at hok
    cases hl : client.ListZones with
    | error e =>
      rw [hl] at hok
      cases hok
    | ok zones =>
      rw [hl] at hok
      simp only at hok
      obtain ⟨_, h2, _⟩ := findZoneID_loop_inv (strings.TrimSuffix fqdn [strings.dot]) zones
      cases hm : (findZoneID.loop (strings.TrimSuffix fqdn [strings.dot]) zones).1 with
      | none =>
        rw [hm] at hok
        cases hok
      | some z =>
        rw [hm] at hok
        have hinfo : info = ⟨Int32Value z.ZID, StringValue z.ZoneName⟩ := by
          injection hok with h
          exact h.symm
        rw [hinfo]
        exact (isMatch_iff _ z).1 (h2 z hm).2.1
  refine ⟨hmatch, ?_⟩
  by_cases heq : strings.TrimSuffix fqdn [strings.dot]
      = strings.TrimSuffix info.Name [strings.dot]
  · exact Or.inl (extractHost_of_eq fqdn info.Name heq)
  · rcases hmatch with h | h
    · exact absurd h heq
    · exact Or.inr (extractHost_of_suffix fqdn info.Name h heq)


/-- Counterexample to C15 as stated: with the pinned zoneID `5` and the listed zone
`other.org` of id `5`, `getZoneID` succeeds for the fqdn `foo.example.com`, the zone does
not match the fqdn, and `extractHost` falls back to the whole fqdn. Also, without a pin,
the fqdn `@` in the zone `@` has the host `"@"`, which is the whole fqdn. -/
theorem getZoneID_unpinned_no_fallback_counterexample :
    getZoneID (Provider.client ⟨[⟨some 5, some "other.org".toList⟩], [], fun _ _ _ => true⟩)
        ⟨[], "5".toList, []⟩ "foo.example.com".toList
      = ([Call.ListZones], .ok ⟨5, "other.org".toList⟩) ∧
    findZoneID.isMatch (strings.TrimSuffix "foo.example.com".toList [strings.dot])
        ⟨some 5, some "other.org".toList⟩ = false ∧
    extractHost "foo.example.com".toList "other.org".toList = "foo.example.com".toList ∧
    getZoneID (Provider.client ⟨[⟨some 1, some "@".toList⟩], [], fun _ _ _ => true⟩)
        unpinned "@".toList
      = ([Call.ListZones], .ok ⟨1, "@".toList⟩) ∧
    extractHost "@".toList "@".toList = "@".toList :=
  ⟨by rfl, by rfl, by rfl, by rfl, by rfl⟩

/-- Witness of C15, amended: the fqdn `_acme-challenge.example.com.` in `example.com`. -/
theorem getZoneID_unpinned_no_fallback_witness :
    (strings.TrimSuffix "_acme-challenge.example.com.".toList [strings.dot]
        = strings.TrimSuffix "example.com".toList [strings.dot] ∨
      (strings.dot :: strings.TrimSuffix "example.com".toList [strings.dot])
        <:+ strings.TrimSuffix "_acme-challenge.example.com.".toList [strings.dot]) ∧
    (extractHost "_acme-challenge.example.com.".toList "example.com".toList = "@".toList ∨
      extractHost "_acme-challenge.example.com.".toList "example.com".toList
          ++ strings.dot :: strings.TrimSuffix "example.com".toList [strings.dot]
        = strings.TrimSuffix "_acme-challenge.example.com.".toList [strings.dot]) :=
  getZoneID_unpinned_no_fallback (Provider.client ⟨acmeZones, [], fun _ _ _ => true⟩) unpinned
    "_acme-challenge.example.com.".toList ⟨1, "example.com".toList⟩ rfl (by rfl)

/-- Witness of C16, amended: the zone `example.com` matches `_acme-challenge.example.com.`. -/
theorem findZoneID_fails_iff_no_match_witness :
    ∃ info, findZoneID (Provider.client ⟨acmeZones, [], fun _ _ _ => true⟩)
        "_acme-challenge.example.com.".toList = ([Call.ListZones], .ok info) :=
  (findZoneID_fails_iff_no_match (Provider.client ⟨acmeZones, [], fun _ _ _ => true⟩)
    acmeZones "_acme-challenge.example.com.".toList rfl).1
    ⟨⟨some 1, some "example.com".toList⟩, by decide,
      (isMatch_iff _ _).1 (by rfl), by decide⟩

/-- The pinned loop stops at the first zone with the id. -/
theorem getZoneID_loop_first (zid : Int) (pre post : List Zone) (z : Zone)
    (hpre : ∀ z' ∈ pre, Int32Value z'.ZID ≠ zid) (hz : Int32Value z.ZID = zid) :
    getZoneID.loop zid (pre ++ z :: post) = some ⟨zid, StringValue z.ZoneName⟩ := by
  induction pre with
  | nil => simp [getZoneID.loop, hz]
  | cons a pre ih =>
    have ha := hpre a (List.mem_cons_self _ _)
    simp only [List.cons_append, getZoneID.loop, if_neg ha]
    exact ih (fun z' hz' => hpre z' (List.mem_cons_of_mem _ hz'))

/-- The pinned loop falls through when no zone has the id. -/
theorem getZoneID_loop_none (zid : Int) (zones : List Zone)
    (h : ∀ z ∈ zones, Int32Value z.ZID ≠ zid) : getZoneID.loop zid zones = none := by
  induction zones with
  | nil => rfl
  | cons a zones ih =>
    have ha := h a (List.mem_cons_self _ _)
    simp only [getZoneID.loop, if_neg ha]
    exact ih (fun z hz => h z (List.mem_cons_of_mem _ hz))

/-- A result of the pinned loop comes from a listed zone with the id. -/
theorem getZoneID_loop_some (zid : Int) (zones : List Zone) (info : ZoneInfo)
    (h : getZoneID.loop zid zones = some info) : ∃ z ∈ zones, Int32Value z.ZID = zid := by
  induction zones with
  | nil => simp [getZoneID.loop] at h
  | cons a zones ih =>
    by_cases ha : Int32Value a.ZID = zid
    · exact ⟨a, List.mem_cons_self _ _, ha⟩
    · simp only [getZoneID.loop, if_neg ha] at h
      obtain ⟨z, hz, hzid⟩ := ih h
      exact ⟨z, List.mem_cons_of_mem _ hz, hzid⟩

/-- When the pinned loop falls through, no listed zone has the id. -/
theorem getZoneID_loop_eq_none (zid : Int) (zones : List Zone)
    (h : getZoneID.loop zid zones = none) : ∀ z ∈ zones, Int32Value z.ZID ≠ zid := by
  induction zones with
  | nil => simp
  | cons a zones ih =>
    by_cases ha : Int32Value a.ZID = zid
    · simp [getZoneID.loop, ha] at h
    · simp only [getZoneID.loop, if_neg ha] at h
      intro z hz
      rcases List.mem_cons.1 hz with rfl | hz
      · exact ha
      · exact ih h z hz

/-- `strconv.ParseInt` rejects the empty string. -/
theorem parseInt_ne_nil (s : List Char) (n : Int) (h : strconv.ParseInt s = some n) :
    s ≠ [] := by
  intro e
  subst e
  simp [strconv.ParseInt] at h

/-- C17 (pinned zone lookup). When the configured zoneID parses to `n` and the zone listing
succeeds, `getZoneID` succeeds if and only if some listed zone has id `n`; on success it
returns the id `n` and the name of the first listed zone with that id, whatever that name
is (it need not be a suffix of the fqdn); otherwise it fails with the zone-not-found
error. -/
theorem getZoneID_pinned {ε : Type} (client : dnsAPI ε) (cfg : Config) (fqdn : List Char)
    (n : Int) (zones : List Zone)
    (hparse : strconv.ParseInt cfg.ZoneID = some n)
    (hlist : client.ListZones = .ok zones) :
    ((∃ info, (getZoneID client cfg fqdn).2 = .ok info) ↔
      ∃ z ∈ zones, Int32Value z.ZID = n) ∧
    (∀ (pre post : List Zone) (z : Zone), zones = pre ++ z :: post →
      (∀ z' ∈ pre, Int32Value z'.ZID ≠ n) → Int32Value z.ZID = n →
      getZoneID client cfg fqdn = ([Call.ListZones], .ok ⟨n, StringValue z.ZoneName⟩)) ∧
    ((∀ z ∈ zones, Int32Value z.ZID ≠ n) →
      getZoneID client cfg fqdn
        = ([Call.ListZones], .error (Error.zoneIDNotFound cfg.ZoneID))) := by
  have hG : getZoneID client cfg fqdn =
      match getZoneID.loop n zones with
      | some info => ([Call.ListZones], .ok info)
      | none => ([Call.ListZones], .error (Error.zoneIDNotFound cfg.ZoneID)) := by
    unfold getZoneID
    rw [if_pos (parseInt_ne_nil _ _ hparse), hparse, hlist]
  refine ⟨⟨?_, ?_⟩, ?_, ?_⟩
  · rintro ⟨info, hinfo⟩
    rw [hG] at hinfo
    cases hl : getZoneID.loop n zones with
    | none =>
      rw [hl] at hinfo
      cases hinfo
    | some i => exact getZoneID_loop_some n zones i hl
  · rintro ⟨z, hz, hzid⟩
    cases hl : getZoneID.loop n zones with
    | none =>
      exfalso
      exact getZoneID_loop_eq_none n zones hl z hz hzid
    | some i =>
      rw [hG, hl]
      exact ⟨i, rfl⟩
  · intro pre post z hsplit hpre hz
    rw [hG, hsplit, getZoneID_loop_first n pre post z hpre hz]
  · intro hnone
    rw [hG, getZoneID_loop_none n zones hnone]


/-- Witness of C17: the zoneID `7` against a listing with two zones of id `7`; the first one,
`other.org`, is returned although the fqdn is `_acme-challenge.example.com`. -/
theorem getZoneID_pinned_witness :
    getZoneID (Provider.client ⟨[⟨some 1, some "example.com".toList⟩,
        ⟨some 7, some "other.org".toList⟩, ⟨some 7, some "dup.org".toList⟩], [],
        fun _ _ _ => true⟩) ⟨[], "7".toList, []⟩ "_acme-challenge.example.com".toList
      = ([Call.ListZones], .ok ⟨7, "other.org".toList⟩) :=
  (getZoneID_pinned (Provider.client ⟨[⟨some 1, some "example.com".toList⟩,
        ⟨some 7, some "other.org".toList⟩, ⟨some 7, some "dup.org".toList⟩], [],
        fun _ _ _ => true⟩) ⟨[], "7".toList, []⟩ "_acme-challenge.example.com".toList 7
      [⟨some 1, some "example.com".toList⟩, ⟨some 7, some "other.org".toList⟩,
        ⟨some 7, some "dup.org".toList⟩] (by rfl) rfl).2.1
    [⟨some 1, some "example.com".toList⟩] [⟨some 7, some "dup.org".toList⟩]
    ⟨some 7, some "other.org".toList⟩ rfl (by decide) (by decide)

/-- The loop of `findZoneID` keeps its state over zones that are not longer matches. -/
theorem findZoneID_foldl_stable (f : List Char) (post : List Zone) (st : Option Zone × Nat)
    (h : ∀ z ∈ post, findZoneID.isMatch f z = true →
      strings.len (strings.TrimSuffix (StringValue z.ZoneName) [strings.dot]) ≤ st.2) :
    post.foldl (findZoneID.step f) st = st := by
  induction post with
  | nil => rfl
  | cons a post ih =>
    have hstep : findZoneID.step f st a = st := by
      unfold findZoneID.step
      by_cases hm : findZoneID.isMatch f a = true
      · have := h a (List.mem_cons_self _ _) hm
        simp only [hm, if_true]
        rw [if_neg (by omega)]
      · simp only [hm]
        rfl
    rw [List.foldl_cons, hstep]
    exact ih (fun z hz => h z (List.mem_cons_of_mem _ hz))

/-- A matching stripped zone name is a suffix of the stripped fqdn. -/
theorem suffix_of_match (f n : List Char)
    (h : f = n ∨ (strings.dot :: n) <:+ f) : n <:+ f := by
  rcases h with h | h
  · rw [h]
  · exact (List.suffix_cons _ _).trans h

/-- A suffix with the same byte length is the whole string. -/
theorem eq_of_suffix_of_len_eq (a b : List Char) (h : a <:+ b)
    (hlen : strings.len a = strings.len b) : a = b := by
  obtain ⟨t, rfl⟩ := h
  rw [strings.len_append] at hlen
  have ht : t = [] := (strings.len_eq_zero_iff t).1 (by omega)
  rw [ht]
  rfl

/-- C18, amended (tie-break is first-seen wins). For every zone listing and fqdn: a listed
zone that matches, whose stripped name is not empty and of the greatest length among the
matching zones, and before which no matching zone of that length is listed, is the zone
`findZoneID` returns; moreover two matching zones whose stripped names have the same length
have the same stripped name, so a tie only arises between entries naming the same zone. -/
theorem findZoneID_first_seen_wins {ε : Type} (client : dnsAPI ε) (zones : List Zone)
    (fqdn : List Char) (hlist : client.ListZones = .ok zones) :
    (∀ (pre post : List Zone) (z : Zone), zones = pre ++ z :: post →
      (strings.TrimSuffix fqdn [strings.dot]
          = strings.TrimSuffix (StringValue z.ZoneName) [strings.dot] ∨
        (strings.dot :: strings.TrimSuffix (StringValue z.ZoneName) [strings.dot])
          <:+ strings.TrimSuffix fqdn [strings.dot]) →
      strings.TrimSuffix (StringValue z.ZoneName) [strings.dot] ≠ [] →
      (∀ z' ∈ zones,
        (strings.TrimSuffix fqdn [strings.dot]
            = strings.TrimSuffix (StringValue z'.ZoneName) [strings.dot] ∨
          (strings.dot :: strings.TrimSuffix (StringValue z'.ZoneName) [strings.dot])
            <:+ strings.TrimSuffix fqdn [strings.dot]) →
        strings.len (strings.TrimSuffix (StringValue z'.ZoneName) [strings.dot])
          ≤ strings.len (strings.TrimSuffix (StringValue z.ZoneName) [strings.dot])) →
      (∀ z' ∈ pre,
        (strings.TrimSuffix fqdn [strings.dot]
            = strings.TrimSuffix (StringValue z'.ZoneName) [strings.dot] ∨
          (strings.dot :: strings.TrimSuffix (StringValue z'.ZoneName) [strings.dot])
            <:+ strings.TrimSuffix fqdn [strings.dot]) →
        strings.len (strings.TrimSuffix (StringValue z'.ZoneName) [strings.dot])
          ≠ strings.len (strings.TrimSuffix (StringValue z.ZoneName) [strings.dot])) →
      findZoneID client fqdn
        = ([Call.ListZones], .ok ⟨Int32Value z.ZID, StringValue z.ZoneName⟩)) ∧
    (∀ z₁ z₂ : Zone,
      (strings.TrimSuffix fqdn [strings.dot]
          = strings.TrimSuffix (StringValue z₁.ZoneName) [strings.dot] ∨
        (strings.dot :: strings.TrimSuffix (StringValue z₁.ZoneName) [strings.dot])
          <:+ strings.TrimSuffix fqdn [strings.dot]) →
      (strings.TrimSuffix fqdn [strings.dot]
          = strings.TrimSuffix (StringValue z₂.ZoneName) [strings.dot] ∨
        (strings.dot :: strings.TrimSuffix (StringValue z₂.ZoneName) [strings.dot])
          <:+ strings.TrimSuffix fqdn [strings.dot]) →
      strings.len (strings.TrimSuffix (StringValue z₁.ZoneName) [strings.dot])
        = strings.len (strings.TrimSuffix (StringValue z₂.ZoneName) [strings.dot]) →
      strings.TrimSuffix (StringValue z₁.ZoneName) [strings.dot]
        = strings.TrimSuffix (StringValue z₂.ZoneName) [strings.dot]) := by
  constructor
  · intro pre post z hsplit hmatch hne hmax hfirst
    have hzm : findZoneID.isMatch (strings.TrimSuffix fqdn [strings.dot]) z = true :=
      (isMatch_iff _ z).2 hmatch
    have hpos := strings.len_pos_of_ne_nil _ hne
    obtain ⟨_, p2, p3⟩ := findZoneID_loop_inv (strings.TrimSuffix fqdn [strings.dot]) pre
    -- before `z` the recorded length is smaller
    have hlt : (findZoneID.loop (strings.TrimSuffix fqdn [strings.dot]) pre).2
        < strings.len (strings.TrimSuffix (StringValue z.ZoneName) [strings.dot]) := by
      cases hm : (findZoneID.loop (strings.TrimSuffix fqdn [strings.dot]) pre).1 with
      | none =>
        rw [p3 hm]
        exact hpos
      | some w =>
        obtain ⟨hw, hwm, hwl, _⟩ := p2 w hm
        have hwz : w ∈ zones := by
          rw [hsplit]
          exact List.mem_append.2 (Or.inl hw)
        have h1 := hmax w hwz ((isMatch_iff _ w).1 hwm)
        have h2 := hfirst w hw ((isMatch_iff _ w).1 hwm)
        omega
    have hstep : findZoneID.step (strings.TrimSuffix fqdn [strings.dot])
        (findZoneID.loop (strings.TrimSuffix fqdn [strings.dot]) pre) z
        = (some z, strings.len (strings.TrimSuffix (StringValue z.ZoneName) [strings.dot])) := by
      unfold findZoneID.step
      simp only [hzm, if_true]
      rw [if_pos hlt]
    have hloop : findZoneID.loop (strings.TrimSuffix fqdn [strings.dot]) zones
        = (some z, strings.len (strings.TrimSuffix (StringValue z.ZoneName) [strings.dot])) := by
      have e : findZoneID.loop (strings.TrimSuffix fqdn [strings.dot]) zones
          = post.foldl (findZoneID.step (strings.TrimSuffix fqdn [strings.dot]))
              (findZoneID.step (strings.TrimSuffix fqdn [strings.dot])
                (findZoneID.loop (strings.TrimSuffix fqdn [strings.dot]) pre) z) := by
        rw [hsplit]
        simp only [findZoneID.loop, List.foldl_append, List.foldl_cons]
      rw [e, hstep]
      apply findZoneID_foldl_stable
      intro z' hz' hz'm
      have hz'z : z' ∈ zones := by
        rw [hsplit]
        exact List.mem_append.2 (Or.inr (List.mem_cons_of_mem _ hz'))
      exact hmax z' hz'z ((isMatch_iff _ z').1 hz'm)
    unfold findZoneID
    rw [hlist]
    simp only
    rw [hloop]
  · intro z₁ z₂ h1 h2 hlen
    have s1 := suffix_of_match _ _ h1
    have s2 := suffix_of_match _ _ h2
    rcases List.suffix_or_suffix_of_suffix s1 s2 with h | h
    · exact eq_of_suffix_of_len_eq _ _ h hlen
    · exact (eq_of_suffix_of_len_eq _ _ h hlen.symm).symm

/-- Counterexample to C18 as stated: the listed zones `"."` and `""` both match the fqdn
`"."` and share the greatest stripped length, `0`; `findZoneID` returns neither, it fails
with the no-matching-zone error. -/
theorem findZoneID_first_seen_wins_counterexample :
    findZoneID.isMatch (strings.TrimSuffix ".".toList [strings.dot])
        ⟨some 1, some ".".toList⟩ = true ∧
    findZoneID.isMatch (strings.TrimSuffix ".".toList [strings.dot]) ⟨some 2, some []⟩ = true ∧
    strings.len (strings.TrimSuffix (StringValue (some ".".toList)) [strings.dot])
      = strings.len (strings.TrimSuffix (StringValue (some [])) [strings.dot]) ∧
    findZoneID (Provider.client ⟨[⟨some 1, some ".".toList⟩, ⟨some 2, some []⟩], [],
        fun _ _ _ => true⟩) ".".toList
      = ([Call.ListZones], .error (Error.noMatchingZone [])) :=
  ⟨by rfl, by rfl, by rfl, by rfl⟩

/-- Witness of C18, amended: `example.com.` and `example.com` tie for `www.example.com`; the
entry listed first is returned. -/
theorem findZoneID_first_seen_wins_witness :
    findZoneID (Provider.client ⟨[⟨some 1, some "com".toList⟩,
        ⟨some 2, some "example.com.".toList⟩, ⟨some 3, some "example.com".toList⟩], [],
        fun _ _ _ => true⟩) "www.example.com".toList
      = ([Call.ListZones], .ok ⟨2, "example.com.".toList⟩) :=
  (findZoneID_first_seen_wins (Provider.client ⟨[⟨some 1, some "com".toList⟩,
        ⟨some 2, some "example.com.".toList⟩, ⟨some 3, some "example.com".toList⟩], [],
        fun _ _ _ => true⟩)
      [⟨some 1, some "com".toList⟩, ⟨some 2, some "example.com.".toList⟩,
        ⟨some 3, some "example.com".toList⟩] "www.example.com".toList rfl).1
    [⟨some 1, some "com".toList⟩] [⟨some 3, some "example.com".toList⟩]
    ⟨some 2, some "example.com.".toList⟩ rfl ((isMatch_iff _ _).1 (by rfl)) (by decide)
    (fun z' hz' _ => by
      simp only [List.mem_cons, List.mem_singleton, List.not_mem_nil, or_false] at hz'
      rcases hz' with rfl | rfl | rfl <;> decide)
    (fun z' hz' _ => by
      simp only [List.mem_cons, List.mem_singleton, List.not_mem_nil, or_false] at hz'
      subst hz'
      decide)

/-- Witness of C11: the provider ignores the host filter; a TXT record at another host and
an `A` record at the host are passed over, the first of two matching records is deleted. -/
theorem CleanUp_filter_and_selection_witness :
    CleanUp (Provider.client ⟨acmeZones,
        [⟨some "1".toList, some "www".toList, some "TXT".toList, some "tok".toList⟩,
          ⟨some "2".toList, some "_acme-challenge".toList, some "A".toList, some "tok".toList⟩,
          acmeRecord "3" "tok", acmeRecord "4" "tok"], fun _ _ _ => true⟩)
        unpinned (acmeChallenge "tok")
      = ([Call.ListZones, Call.GetRecords 1 "_acme-challenge".toList,
          Call.DeleteRecord 1 "3".toList], none) :=
  (CleanUp_filter_and_selection (Provider.client ⟨acmeZones,
        [⟨some "1".toList, some "www".toList, some "TXT".toList, some "tok".toList⟩,
          ⟨some "2".toList, some "_acme-challenge".toList, some "A".toList, some "tok".toList⟩,
          acmeRecord "3" "tok", acmeRecord "4" "tok"], fun _ _ _ => true⟩)
      unpinned (acmeChallenge "tok") ⟨1, "example.com".toList⟩
      [⟨some "1".toList, some "www".toList, some "TXT".toList, some "tok".toList⟩,
        ⟨some "2".toList, some "_acme-challenge".toList, some "A".toList, some "tok".toList⟩,
        acmeRecord "3" "tok", acmeRecord "4" "tok"] (by rfl) (by rfl)).2.1
    [⟨some "1".toList, some "www".toList, some "TXT".toList, some "tok".toList⟩,
      ⟨some "2".toList, some "_acme-challenge".toList, some "A".toList, some "tok".toList⟩]
    [acmeRecord "4" "tok"] (acmeRecord "3" "tok") rfl
    (fun r' hr' => by
      simp only [List.mem_cons, List.mem_singleton, List.not_mem_nil, or_false] at hr'
      rcases hr' with rfl | rfl <;> decide)
    (by decide)

end volcengine
